import Mathlib

/-!
Verification development for the hwcaps-loader repository.

The definitions below are a shallow embedding of the Rust sources:
  - src/src/capabilities/arch_x86.rs  (feature detector, arch-name formatting)
  - src/src/main.rs                   (path construction and fallback loop)
  - src/src/sys.rs                    (exit-code taxonomy, readlink contract)
Machine integers (u32, usize) are modelled as Nat; register values are
arbitrary Nat inputs and all bit masks fit in 32 bits.  Byte buffers are
modelled as List Nat (one Nat per byte).
-/

set_option linter.unusedVariables false
set_option maxRecDepth 4000

namespace Hwcaps

/-! ### Feature-flag constants, from src/src/capabilities/arch_x86.rs (bitflags blocks) -/

namespace X86Flags01hEdx

def FPU  : Nat := 1 <<< 0
def CX8  : Nat := 1 <<< 8
def MMX  : Nat := 1 <<< 23
def SEP  : Nat := 1 <<< 11
def CMOV : Nat := 1 <<< 15
def FXSR : Nat := 1 <<< 24
def SSE  : Nat := 1 <<< 25
def SSE2 : Nat := 1 <<< 26

end X86Flags01hEdx

namespace X86Flags01hEcx

def SSE3       : Nat := 1 <<< 0
def SSSE3      : Nat := 1 <<< 9
def CMPXCHG16B : Nat := 1 <<< 13
def SSE4_1     : Nat := 1 <<< 19
def SSE4_2     : Nat := 1 <<< 20
def POPCNT     : Nat := 1 <<< 23
def FMA        : Nat := 1 <<< 12
def MOVBE      : Nat := 1 <<< 22
def OSXSAVE    : Nat := 1 <<< 27
def AVX        : Nat := 1 <<< 28
def F16C       : Nat := 1 <<< 29

end X86Flags01hEcx

namespace X86Flags80000001hEcx

def LAHF_SAHF : Nat := 1 <<< 0
def LZCNT     : Nat := 1 <<< 5

end X86Flags80000001hEcx

namespace X86Flags07hEbx

def BMI1     : Nat := 1 <<< 3
def AVX2     : Nat := 1 <<< 5
def BMI2     : Nat := 1 <<< 8
def AVX512F  : Nat := 1 <<< 16
def AVX512DQ : Nat := 1 <<< 17
def AVX512CD : Nat := 1 <<< 28
def AVX512BW : Nat := 1 <<< 30
def AVX512VL : Nat := 1 <<< 31

end X86Flags07hEbx

/-! ### Cumulative hwcaps masks, from src/src/capabilities/arch_x86.rs lines 58-77 -/

def I486_HWCAPS : Nat := X86Flags01hEdx.FPU

def I586_HWCAPS : Nat := I486_HWCAPS ||| X86Flags01hEdx.CX8 ||| X86Flags01hEdx.MMX

def I686_HWCAPS : Nat :=
  I586_HWCAPS ||| X86Flags01hEdx.SEP ||| X86Flags01hEdx.CMOV ||| X86Flags01hEdx.FXSR

def I786_HWCAPS : Nat := I686_HWCAPS ||| X86Flags01hEdx.SSE

def I886_HWCAPS : Nat := I786_HWCAPS ||| X86Flags01hEdx.SSE2

def X86_64_V1_HWCAPS : Nat := I886_HWCAPS

/-- From the source (note the source's redundant repetitions of SSE4_2 and
CMPXCHG16B, which do not change the mask). -/
def X86_64_V2_HWCAPS_01H_ECX : Nat :=
  X86Flags01hEcx.SSE3 ||| X86Flags01hEcx.SSSE3 ||| X86Flags01hEcx.CMPXCHG16B
    ||| X86Flags01hEcx.SSE4_1 ||| X86Flags01hEcx.SSE4_2 ||| X86Flags01hEcx.SSE4_2
    ||| X86Flags01hEcx.CMPXCHG16B

def X86_64_V2_HWCAPS_80000001H_ECX : Nat := X86Flags80000001hEcx.LAHF_SAHF

def X86_64_V3_HWCAPS_01H_ECX : Nat :=
  X86_64_V2_HWCAPS_01H_ECX ||| X86Flags01hEcx.FMA ||| X86Flags01hEcx.MOVBE
    ||| X86Flags01hEcx.OSXSAVE ||| X86Flags01hEcx.AVX ||| X86Flags01hEcx.F16C

def X86_64_V3_HWCAPS_80000001H_ECX : Nat :=
  X86_64_V2_HWCAPS_80000001H_ECX ||| X86Flags80000001hEcx.LZCNT

def X86_64_V3_HWCAPS_07H_EBX : Nat :=
  X86Flags07hEbx.BMI1 ||| X86Flags07hEbx.AVX2 ||| X86Flags07hEbx.BMI2

def X86_64_V4_HWCAPS_07H_EBX : Nat :=
  X86_64_V3_HWCAPS_07H_EBX ||| X86Flags07hEbx.AVX512F ||| X86Flags07hEbx.AVX512DQ
    ||| X86Flags07hEbx.AVX512CD ||| X86Flags07hEbx.AVX512BW ||| X86Flags07hEbx.AVX512VL

/-! ### Arch name data, from src/src/capabilities/arch_x86.rs lines 79-97 -/

/-- Byte string `b"i\086"` (the byte 0 is a placeholder for the version digit). -/
def X86_HWCAPS_STRING : List Nat := [105, 0, 56, 54]

/-- Byte string `b"x86-64-v\0"`. -/
def X86_64_HWCAPS_STRING : List Nat := [120, 56, 54, 45, 54, 52, 45, 118, 0]

/-- Version digit characters per tier: '3','4','5','6','1','2','3','4'. -/
def HWCAPS_CHARS : List Nat := [51, 52, 53, 54, 49, 50, 51, 52]

def X86_64_HWCAPS_INDEX : Nat := 4

/-- From `arch_name_changed` in src/src/capabilities/arch_x86.rs. -/
def arch_name_changed (fl : Nat) : Bool := fl + 1 == X86_64_HWCAPS_INDEX

/-- The template string chosen by `format_arch_name` for a tier
(the `if feature_level < X86_64_HWCAPS_INDEX` selection in the source). -/
def templateOf (feature_level : Nat) : List Nat :=
  if feature_level < X86_64_HWCAPS_INDEX then X86_HWCAPS_STRING else X86_64_HWCAPS_STRING

/-- The `version_index` accumulator of the copy loop inside `format_arch_name`:
starting from accumulator `acc` at byte position `base`, it records the
position of each 0 byte encountered (so it ends at the last 0 byte). -/
def version_index_scan : List Nat → Nat → Nat → Nat
  | [], _, acc => acc
  | b :: rest, base, acc => version_index_scan rest (base + 1) (if b == 0 then base else acc)

/-- From `format_arch_name` in src/src/capabilities/arch_x86.rs lines 100-123.
`buffer` is the byte slice handed in; on success the returned list is the
slice's new contents (template written over its head, remainder untouched),
paired with `(version_index, arch_string.len())`. -/
def format_arch_name (buffer : List Nat) (feature_level : Nat) :
    Except Unit ((Nat × Nat) × List Nat) :=
  let arch_string := templateOf feature_level
  if buffer.length < arch_string.length then .error ()
  else .ok ((version_index_scan arch_string 0 0, arch_string.length),
            arch_string ++ buffer.drop arch_string.length)

/-! ### 64-bit feature detection, from src/src/capabilities/arch_x86.rs lines 187-285.
The CPUID register reads are inputs: maximum extended leaf (eax of leaf
0x80000000), leaf 1 ecx, leaf 0x80000001 ecx, maximum basic leaf (eax of
leaf 0), and leaf 7 sub-leaf 0 ebx. -/

def get_max_feature_level_64 (max_advanced_value feature_set_01h_ecx
    feature_set_80000001h_ecx max_basic_value feature_set_07h_ebx : Nat) : Nat :=
  if max_advanced_value < 0x80000001 then X86_64_HWCAPS_INDEX
  else if ¬(feature_set_01h_ecx &&& X86_64_V2_HWCAPS_01H_ECX = X86_64_V2_HWCAPS_01H_ECX)
       ∨ ¬(feature_set_80000001h_ecx &&& X86_64_V2_HWCAPS_80000001H_ECX
            = X86_64_V2_HWCAPS_80000001H_ECX) then X86_64_HWCAPS_INDEX
  else if max_basic_value < 0x7 then X86_64_HWCAPS_INDEX + 1
  else if ¬(feature_set_01h_ecx &&& X86_64_V3_HWCAPS_01H_ECX = X86_64_V3_HWCAPS_01H_ECX)
       ∨ ¬(feature_set_07h_ebx &&& X86_64_V3_HWCAPS_07H_EBX = X86_64_V3_HWCAPS_07H_EBX)
       ∨ ¬(feature_set_80000001h_ecx &&& X86_64_V3_HWCAPS_80000001H_ECX
            = X86_64_V3_HWCAPS_80000001H_ECX) then X86_64_HWCAPS_INDEX + 1
  else if ¬(feature_set_07h_ebx &&& X86_64_V4_HWCAPS_07H_EBX = X86_64_V4_HWCAPS_07H_EBX) then
    X86_64_HWCAPS_INDEX + 2
  else X86_64_HWCAPS_INDEX + 3

/-! ### 32-bit feature detection, from src/src/capabilities/arch_x86.rs lines 125-185.
The input is leaf 1 edx (0 when the EFLAGS probe finds no CPUID support). -/

/-- The `match i` inside the 32-bit detection loop. -/
def has_feature_32 (feature_bitset : Nat) : Nat → Bool
  | 1 => feature_bitset &&& I486_HWCAPS == I486_HWCAPS
  | 2 => feature_bitset &&& I586_HWCAPS == I586_HWCAPS
  | 3 => feature_bitset &&& I686_HWCAPS == I686_HWCAPS
  | _ => false

/-- The `for i in 1..=(X86_64_HWCAPS_INDEX-1)` loop: counts consecutive
satisfied tiers, stopping at the first failure. -/
def feature_level_loop_32 (feature_bitset : Nat) : List Nat → Nat
  | [] => 0
  | i :: rest =>
    if has_feature_32 feature_bitset i then feature_level_loop_32 feature_bitset rest + 1
    else 0

def get_max_feature_level_32 (feature_bitset : Nat) : Nat :=
  if feature_bitset = 0 then 0
  else feature_level_loop_32 feature_bitset (List.range' 1 (X86_64_HWCAPS_INDEX - 1))

/-! ### The target-path construction and fallback loop, from src/src/main.rs lines 236-322.
Buffers are fixed-size byte arrays of `MAX_PATH_LEN` bytes, modelled as
`List Nat` of that length.  `execve` is an oracle: `none` means the process
image was replaced (the call does not return), `some errno` is the failure. -/

/-- Linux PATH_MAX, the value of the `sys::MAX_PATH_LEN` binding used by main.rs. -/
def MAX_PATH_LEN : Nat := 4096

/-- The `sys::ENOENT` errno value (Linux: 2). -/
def ENOENT : Nat := 2

/-- Byte string `b"hwcaps/"` (main.rs line 238). -/
def hwcapsDir : List Nat := [104, 119, 99, 97, 112, 115, 47]

/-- Write `data` over `buf` starting at `start` (Rust slice `copy_from_slice`). -/
def writeSlice (buf : List Nat) (start : Nat) (data : List Nat) : List Nat :=
  buf.take start ++ data ++ buf.drop (start + data.length)

/-- The bytes the kernel sees when the buffer is passed as a C string:
everything up to the first 0 byte (`CStr::from_ptr` in main.rs line 304). -/
def cstrBytes (buf : List Nat) : List Nat := buf.takeWhile (fun b => b != 0)

/-- Mutable state threaded through the fallback loop of main.rs
(`target_path`, `must_format_arch`, `version_char_index`, `path_len`). -/
structure LoopState where
  target_path : List Nat
  must_format_arch : Bool
  version_char_index : Nat
  path_len : Nat
  deriving Repr, DecidableEq

/-- Outcome of the fallback loop. -/
inductive LoopResult where
  | replaced (path : List Nat)
  | targetPathTooLarge
  | targetExecutionError (path : List Nat) (errno : Nat)
  | targetNoViableBinaries
  deriving Repr, DecidableEq

/-- The `if must_format_arch { ... }` block of one loop iteration
(main.rs lines 271-289): format the arch-name segment at offset
`usr_index + 1 + 7`, re-append the command suffix `second_half`, write the
terminating 0 byte, and record the version-character index and path length.
`.error ()` stands for the two `TARGET_PATH_TOO_LARGE` aborts. -/
def loop_body_format (usr_index : Nat) (second_half : List Nat) (i : Nat)
    (s : LoopState) : Except Unit LoopState :=
  if s.must_format_arch then
    let hw_end := usr_index + 1 + hwcapsDir.length
    match format_arch_name (s.target_path.drop hw_end) i with
    | .error _ => .error ()
    | .ok ((relative_char_index, arch_name_len), written) =>
      let tp := s.target_path.take hw_end ++ written
      let version_char_index := relative_char_index + hw_end
      let path_len := (usr_index + 1 + hwcapsDir.length) + arch_name_len
                        + second_half.length + 1
      if path_len > MAX_PATH_LEN then .error ()
      else
        let start := hw_end + arch_name_len
        let tp := writeSlice tp start second_half
        let tp := tp.set (start + second_half.length) 0
        .ok { target_path := tp, must_format_arch := false,
              version_char_index := version_char_index, path_len := path_len }
  else .ok s

/-- One iteration of the fallback loop up to (and including) the
version-character write (main.rs lines 266-292): raise `must_format_arch`
at the family boundary, run the formatting block, then write the tier's
version digit at `version_char_index`. -/
def iter_state (usr_index : Nat) (second_half : List Nat) (i : Nat)
    (s0 : LoopState) : Except Unit LoopState :=
  let s1 := if arch_name_changed i then { s0 with must_format_arch := true } else s0
  match loop_body_format usr_index second_half i s1 with
  | .error _ => .error ()
  | .ok s2 =>
    .ok { s2 with
          target_path := s2.target_path.set s2.version_char_index (HWCAPS_CHARS.getD i 0) }

/-- The `for i in (0..=feature_level).rev()` loop of main.rs lines 264-319,
iterating over the (descending) list of tiers.  Returns the outcome and the
list of paths passed to `execve`, in order. -/
def run_tiers (exec : List Nat → Option Nat) (usr_index : Nat)
    (second_half : List Nat) : List Nat → LoopState → LoopResult × List (List Nat)
  | [], _ => (.targetNoViableBinaries, [])
  | i :: rest, s0 =>
    match iter_state usr_index second_half i s0 with
    | .error _ => (.targetPathTooLarge, [])
    | .ok s3 =>
      let path := cstrBytes s3.target_path
      match exec path with
      | none => (.replaced path, [path])
      | some e =>
        if e = ENOENT then
          let r := run_tiers exec usr_index second_half rest s3
          (r.1, path :: r.2)
        else (.targetExecutionError path e, [path])

/-- Entry to the fallback machinery (main.rs lines 236-264): write the
`hwcaps/` segment after the installation-root part of the loader's own path
and run the descending tier loop.  `exec_path` is the loader's resolved
path buffer (MAX_PATH_LEN bytes), `usr_index` the index of the slash ending
the installation root, `second_half` the command path after the root. -/
def run_loop (exec : List Nat → Option Nat) (exec_path : List Nat) (usr_index : Nat)
    (second_half : List Nat) (feature_level : Nat) : LoopResult × List (List Nat) :=
  let base_length := (usr_index + 1) + hwcapsDir.length
  if base_length > MAX_PATH_LEN then (.targetPathTooLarge, [])
  else
    let target_path := writeSlice exec_path (usr_index + 1) hwcapsDir
    run_tiers exec usr_index second_half ((List.range (feature_level + 1)).reverse)
      { target_path := target_path, must_format_arch := true,
        version_char_index := 0, path_len := 0 }

/-- Reference variant of `iter_state` for the refinement claim, following
the spec's words: the architecture-name segment is reformatted and the
suffix re-appended on every iteration (never a single-byte update). -/
def iter_state_full (usr_index : Nat) (second_half : List Nat) (i : Nat)
    (s0 : LoopState) : Except Unit LoopState :=
  let s1 := { s0 with must_format_arch := true }
  match loop_body_format usr_index second_half i s1 with
  | .error _ => .error ()
  | .ok s2 =>
    .ok { s2 with
          target_path := s2.target_path.set s2.version_char_index (HWCAPS_CHARS.getD i 0) }

/-- Reference variant for the refinement claim, following the spec's words:
reformat on every iteration, everything else as in `run_tiers`. -/
def run_tiers_full (exec : List Nat → Option Nat) (usr_index : Nat)
    (second_half : List Nat) : List Nat → LoopState → LoopResult × List (List Nat)
  | [], _ => (.targetNoViableBinaries, [])
  | i :: rest, s0 =>
    match iter_state_full usr_index second_half i s0 with
    | .error _ => (.targetPathTooLarge, [])
    | .ok s3 =>
      let path := cstrBytes s3.target_path
      match exec path with
      | none => (.replaced path, [path])
      | some e =>
        if e = ENOENT then
          let r := run_tiers_full exec usr_index second_half rest s3
          (r.1, path :: r.2)
        else (.targetExecutionError path e, [path])

/-- Reference variant of `run_loop` using `run_tiers_full`. -/
def run_loop_full (exec : List Nat → Option Nat) (exec_path : List Nat) (usr_index : Nat)
    (second_half : List Nat) (feature_level : Nat) : LoopResult × List (List Nat) :=
  let base_length := (usr_index + 1) + hwcapsDir.length
  if base_length > MAX_PATH_LEN then (.targetPathTooLarge, [])
  else
    let target_path := writeSlice exec_path (usr_index + 1) hwcapsDir
    run_tiers_full exec usr_index second_half ((List.range (feature_level + 1)).reverse)
      { target_path := target_path, must_format_arch := true,
        version_char_index := 0, path_len := 0 }

/-! ### Abstract view of the loop: the candidate path per tier. -/

/-- The completed architecture-name bytes for a tier: the family template
with the tier's version digit written at the placeholder position (this is
what the buffer holds when `execve` is attempted). -/
def nameBytes (i : Nat) : List Nat :=
  (templateOf i).set (version_index_scan (templateOf i) 0 0) (HWCAPS_CHARS.getD i 0)

/-- The candidate target path attempted for tier `i`:
installation-root part, `hwcaps/`, completed arch name, command suffix. -/
def candidate (pre second_half : List Nat) (i : Nat) : List Nat :=
  pre ++ hwcapsDir ++ nameBytes i ++ second_half

/-- The descending tier list `[n, n-1, ..., 0]`. -/
def descList : Nat → List Nat
  | 0 => [0]
  | n + 1 => (n + 1) :: descList n

/-- Idealized loop over candidate paths: try each tier's candidate in order,
continue on ENOENT, stop otherwise. -/
def runClean (exec : List Nat → Option Nat) (pre second_half : List Nat) :
    List Nat → LoopResult × List (List Nat)
  | [] => (.targetNoViableBinaries, [])
  | i :: rest =>
    let p := candidate pre second_half i
    match exec p with
    | none => (.replaced p, [p])
    | some e =>
      if e = ENOENT then
        let r := runClean exec pre second_half rest
        (r.1, p :: r.2)
      else (.targetExecutionError p e, [p])

/-! ### The surrounding `main` pipeline, from src/src/main.rs lines 95-234,
with the OS interactions (readlink of /proc/self/exe, openat, readlink of
/dev/fd/N, execve) as oracle inputs. -/

/-- Terminal result of `main`: either the process image was replaced, or the
process exited under one of the abort conditions of main.rs. -/
inductive MainResult where
  | replaced (path : List Nat)
  | commandPathInvalid
  | commandPathInvalidAncestor
  | selfExecution
  | procPathIOError
  | procPathEmpty
  | procPathNoParent
  | procPathNoGrandparent
  | pathResolutionIOError
  | rustPanic
  | targetPathInvalid
  | targetPathTooLarge
  | targetExecutionError (path : List Nat) (errno : Nat)
  | targetNoViableBinaries
  deriving Repr, DecidableEq

/-- The exit-status taxonomy of the newer revision, from the `ExitCode` enum
in src/src/sys.rs lines 112-124. -/
inductive ExitCode where
  | rustPanic
  | selfExecution
  | commandPathInvalid
  | procPathIOError
  | procPathInvalid
  | pathResolutionIOError
  | targetPathInvalid
  | targetPathTooLarge
  | targetExecutionError
  | targetNoViableBinaries
  deriving Repr, DecidableEq

/-- The numeric values assigned in src/src/sys.rs. -/
def ExitCode.val : ExitCode → Nat
  | .rustPanic => 100
  | .selfExecution => 200
  | .commandPathInvalid => 210
  | .procPathIOError => 220
  | .procPathInvalid => 221
  | .pathResolutionIOError => 230
  | .targetPathInvalid => 240
  | .targetPathTooLarge => 241
  | .targetExecutionError => 242
  | .targetNoViableBinaries => 243

/-- All constructors of `ExitCode`. -/
def allExitCodes : List ExitCode :=
  [.rustPanic, .selfExecution, .commandPathInvalid, .procPathIOError, .procPathInvalid,
   .pathResolutionIOError, .targetPathInvalid, .targetPathTooLarge,
   .targetExecutionError, .targetNoViableBinaries]

/-- Map loop outcomes into main outcomes. -/
def liftLoop : LoopResult × List (List Nat) → MainResult × List (List Nat)
  | (.replaced p, t) => (.replaced p, t)
  | (.targetPathTooLarge, t) => (.targetPathTooLarge, t)
  | (.targetExecutionError p e, t) => (.targetExecutionError p e, t)
  | (.targetNoViableBinaries, t) => (.targetNoViableBinaries, t)

/-- Index of the first occurrence of byte `b` (the `memchr` crate call). -/
def memchr (b : Nat) (l : List Nat) : Option Nat := l.findIdx? (fun x => x == b)

/-- Index of the last occurrence of byte `b` (the `memrchr` crate call). -/
def memrchr (b : Nat) (l : List Nat) : Option Nat :=
  match (l.reverse).findIdx? (fun x => x == b) with
  | some i => some (l.length - 1 - i)
  | none => none

/-- From `get_arg_string` in main.rs lines 95-107: `arg_slice` is the first
MAX_PATH_LEN bytes at argv0; the result keeps everything up to and
including the first 0 byte, `.error ()` is the COMMAND_PATH_INVALID abort. -/
def get_arg_string (arg_slice : List Nat) : Except Unit (List Nat) :=
  match memchr 0 arg_slice with
  | some i => .ok (arg_slice.take (i + 1))
  | none => .error ()

/-- The readlink(2) contract quoted in src/src/sys.rs lines 164-176: the
kernel places up to `bufsiz` bytes of the link target in the buffer,
silently truncating when the target is longer, and returns the byte count;
truncation is not an error. -/
def readlink_contract (target : List Nat) (bufsiz : Nat) : Nat × List Nat :=
  (min target.length bufsiz, target.take bufsiz)

/-- From `get_exec_path` in main.rs lines 109-130: read /proc/self/exe into a
zero-initialized MAX_PATH_LEN buffer and locate the last and second-to-last
slash.  `self_link` is the oracle outcome of the readlink call (errno or
the link target's bytes).  Returns the buffer together with
`(exec_size, last_dash, second_last_dash)`. -/
def get_exec_path_model (self_link : Except Nat (List Nat)) :
    Except MainResult (List Nat × Nat × Nat × Nat) :=
  match self_link with
  | .error _ => .error .procPathIOError
  | .ok target =>
    let r := readlink_contract target MAX_PATH_LEN
    let exec_size := r.1
    let buffer := r.2 ++ List.replicate (MAX_PATH_LEN - r.2.length) 0
    if ¬ exec_size > 0 then .error .procPathEmpty
    else
      match memrchr 47 buffer with
      | none => .error .procPathNoParent
      | some last_dash =>
        match memrchr 47 (buffer.take last_dash) with
        | none => .error .procPathNoGrandparent
        | some second_last_dash => .ok (buffer, exec_size, last_dash, second_last_dash)

/-- The alias test of main.rs line 209: argv0 starts with none of "/", "./", "../". -/
def is_alias (argv0 : List Nat) : Bool :=
  ¬([47].isPrefixOf argv0 || [46, 47].isPrefixOf argv0 || [46, 46, 47].isPrefixOf argv0)

/-- The full `main` of src/src/main.rs lines 190-322 (draft revision present
under src/), with every OS interaction supplied as an oracle:
`arg_slice` the raw bytes at argv0; `self_link` the readlink of
/proc/self/exe; `open_parent` the openat of the loader's parent directory
(consulted only in the alias case); `cmd_open` the openat of argv0;
`cmd_link` the readlink of the opened descriptor's /dev/fd path (the
resolved command path bytes); `exec` the execve oracle; `feature_level`
the detector's result.  Note that a failed installation-root validation
terminates through `panic!` (modelled as `.rustPanic`). -/
def hwcaps_main (self_execution_check : Bool) (feature_level : Nat)
    (arg_slice : List Nat)
    (self_link : Except Nat (List Nat))
    (open_parent : Except Nat Nat)
    (cmd_open : Except Nat Nat)
    (cmd_link : Except Nat (List Nat))
    (exec : List Nat → Option Nat) : MainResult × List (List Nat) :=
  match get_arg_string arg_slice with
  | .error _ => (.commandPathInvalid, [])
  | .ok argv0 =>
    match get_exec_path_model self_link with
    | .error r => (r, [])
    | .ok (exec_path, exec_size, bin_index, usr_index) =>
      if self_execution_check
          && ((exec_path.drop (bin_index + 1)).take (exec_size + 1 - (bin_index + 1))).isSuffixOf
               argv0 then
        (.selfExecution, [])
      else
        match (if is_alias argv0 then open_parent else .ok 0) with
        | .error _ => (.commandPathInvalidAncestor, [])
        | .ok _ =>
          match cmd_open with
          | .error _ => (.pathResolutionIOError, [])
          | .ok _ =>
            match cmd_link with
            | .error _ => (.pathResolutionIOError, [])
            | .ok target =>
              let r := readlink_contract target MAX_PATH_LEN
              let argv0_len := r.1
              let buffer := r.2 ++ List.replicate (MAX_PATH_LEN - r.2.length) 0
              let first_half := buffer.take (usr_index + 1)
              let second_half := (buffer.drop usr_index).take (argv0_len - usr_index)
              if first_half ≠ exec_path.take (usr_index + 1) then (.rustPanic, [])
              else liftLoop (run_loop exec exec_path usr_index second_half feature_level)

/-- Modelled from the spec: the final-variant `main`'s target-location
validation.  The revision that issues the distinct TargetPathInvalid abort
is not under src/ — src/ holds only its `ExitCode` declaration
(src/src/sys.rs, `TargetPathInvalid = 240`) and a superseded draft main.rs
that reaches the same check but terminates through `panic!` (main.rs lines
228-234).  Per spec section 4.2 the resolved command path must share the
installation-root prefix with the loader's own path, otherwise the program
fails with the "target path invalid" status before any execution attempt;
on success the fallback loop of main.rs runs unchanged. -/
def main_final (exec : List Nat → Option Nat) (exec_path resolved : List Nat)
    (resolved_len usr_index feature_level : Nat) : MainResult × List (List Nat) :=
  if resolved.take (usr_index + 1) ≠ exec_path.take (usr_index + 1) then
    (.targetPathInvalid, [])
  else
    let second_half := (resolved.drop usr_index).take (resolved_len - usr_index)
    liftLoop (run_loop exec exec_path usr_index second_half feature_level)

/-- From `resolve_path` in main.rs lines 132-161, success case: the resolved
command path is read back with readlink into a MAX_PATH_LEN buffer; the
returned byte count is propagated with no length or truncation check. -/
def resolve_path_model (resolved_target : List Nat) : Nat × List Nat :=
  let r := readlink_contract resolved_target MAX_PATH_LEN
  (r.1, r.2 ++ List.replicate (MAX_PATH_LEN - r.2.length) 0)

/-- The trailing path component of a NUL-terminated invocation name:
drop the terminator, then keep what follows the last slash. -/
def lastComponentOfArg (argv0 : List Nat) : List Nat :=
  let core := argv0.dropLast
  match memrchr 47 core with
  | some i => core.drop (i + 1)
  | none => core

/-! ### Further specification-side definitions used by the claims -/

/-- Loop invariant for the fallback iteration: the buffer is full-length and
either formatting is pending over a buffer that still starts with the
validated prefix and the `hwcaps/` segment, or formatting is done and the
buffer holds the complete candidate for the previously processed tier
`i + 1` with the version-character index recorded. -/
def LoopInv (ui : Nat) (pre sh : List Nat) (i : Nat) (s : LoopState) : Prop :=
  s.target_path.length = MAX_PATH_LEN ∧
  ((s.must_format_arch = true ∧ ∃ tail, s.target_path = pre ++ hwcapsDir ++ tail) ∨
   (s.must_format_arch = false ∧
    s.version_char_index
      = version_index_scan (templateOf (i + 1)) 0 0 + (ui + 1 + hwcapsDir.length) ∧
    ∃ junk, s.target_path = pre ++ hwcapsDir ++ nameBytes (i + 1) ++ sh ++ 0 :: junk))

/-- Invariant for the always-reformat reference loop: full-length buffer
starting with the validated prefix and the `hwcaps/` segment. -/
def LoopInvFull (ui : Nat) (pre : List Nat) (s : LoopState) : Prop :=
  s.target_path.length = MAX_PATH_LEN ∧ ∃ tail, s.target_path = pre ++ hwcapsDir ++ tail

/-- Restatement of the 64-bit detection algorithm in the words of the claim:
v1 when the maximum extended leaf is below 0x80000001 or any v2-required
bit (SSE3, SSSE3, CMPXCHG16B, SSE4.1, SSE4.2 in leaf 1 ecx; LAHF/SAHF in
extended leaf ecx) is absent; otherwise v2 when the maximum basic leaf is
below 7 or any v3-required bit is absent; otherwise v4 when all of
AVX-512 F/DQ/CD/BW/VL are present, else v3. -/
def claimed_max_feature_level_x86_64 (max_advanced ecx1 ecx_ext max_basic ebx7 : Nat) :
    Nat :=
  let v2_ecx1 : Nat := 2 ^ 0 + 2 ^ 9 + 2 ^ 13 + 2 ^ 19 + 2 ^ 20
  let v2_ext : Nat := 2 ^ 0
  let v3_ecx1 : Nat := v2_ecx1 + 2 ^ 12 + 2 ^ 22 + 2 ^ 27 + 2 ^ 28 + 2 ^ 29
  let v3_ext : Nat := v2_ext + 2 ^ 5
  let v3_ebx7 : Nat := 2 ^ 3 + 2 ^ 5 + 2 ^ 8
  let avx512 : Nat := 2 ^ 16 + 2 ^ 17 + 2 ^ 28 + 2 ^ 30 + 2 ^ 31
  if max_advanced < 0x80000001 ∨ ¬(ecx1 &&& v2_ecx1 = v2_ecx1) ∨ ¬(ecx_ext &&& v2_ext = v2_ext)
  then 4
  else if max_basic < 7 ∨ ¬(ecx1 &&& v3_ecx1 = v3_ecx1) ∨ ¬(ebx7 &&& v3_ebx7 = v3_ebx7)
      ∨ ¬(ecx_ext &&& v3_ext = v3_ext)
  then 5
  else if ebx7 &&& avx512 = avx512 then 7
  else 6

/-- Cumulative leaf-1 edx requirement to reach each 32-bit-family tier
(the masks checked by the 32-bit detection loop; tier 0 requires nothing). -/
def x86ReqEdx : Nat → Nat
  | 1 => I486_HWCAPS
  | 2 => I586_HWCAPS
  | 3 => I686_HWCAPS
  | _ => 0

/-- Per-register requirement triple for the 64-bit family
(leaf 1 ecx, extended-leaf ecx, leaf 7 ebx). -/
structure Req64 where
  ecx1 : Nat
  ecx_ext : Nat
  ebx7 : Nat
  deriving Repr, DecidableEq

/-- Cumulative register requirements to reach each 64-bit-family tier
(tier indices 4..7; the masks checked on the way to each return point of
the 64-bit detector; tier 4 = v1 requires nothing). -/
def x8664Req : Nat → Req64
  | 5 => ⟨X86_64_V2_HWCAPS_01H_ECX, X86_64_V2_HWCAPS_80000001H_ECX, 0⟩
  | 6 => ⟨X86_64_V3_HWCAPS_01H_ECX, X86_64_V3_HWCAPS_80000001H_ECX, X86_64_V3_HWCAPS_07H_EBX⟩
  | 7 => ⟨X86_64_V3_HWCAPS_01H_ECX, X86_64_V3_HWCAPS_80000001H_ECX, X86_64_V4_HWCAPS_07H_EBX⟩
  | _ => ⟨0, 0, 0⟩

/-- Mask containment: every bit of `m` is set in `x`. -/
def submask (m x : Nat) : Prop := x &&& m = m

/-- The full requirement to reach a 64-bit-family tier, leaf-availability
conditions included. -/
def meets64 (max_advanced ecx1 ecx_ext max_basic ebx7 : Nat) : Nat → Prop
  | 4 => True
  | 5 => 0x80000001 ≤ max_advanced
         ∧ submask (x8664Req 5).ecx1 ecx1 ∧ submask (x8664Req 5).ecx_ext ecx_ext
  | 6 => 0x80000001 ≤ max_advanced ∧ 7 ≤ max_basic
         ∧ submask (x8664Req 6).ecx1 ecx1 ∧ submask (x8664Req 6).ecx_ext ecx_ext
         ∧ submask (x8664Req 6).ebx7 ebx7
  | 7 => 0x80000001 ≤ max_advanced ∧ 7 ≤ max_basic
         ∧ submask (x8664Req 7).ecx1 ecx1 ∧ submask (x8664Req 7).ecx_ext ecx_ext
         ∧ submask (x8664Req 7).ebx7 ebx7
  | _ => False

/-- The requirement to reach a 32-bit-family tier. -/
def meets32 (feature_bitset j : Nat) : Prop :=
  if j = 0 then True
  else j ≤ 3 ∧ feature_bitset ≠ 0 ∧ submask (x86ReqEdx j) feature_bitset

/-- Indices at which two byte lists differ. -/
def diffIndices (a b : List Nat) : List Nat :=
  (List.range a.length).filter (fun j => a.getD j 0 != b.getD j 0)

/-! ## Supporting lemmas -/

theorem hwcapsDir_length : hwcapsDir.length = 7 := rfl

theorem templateOf_length (i : Nat) :
    (templateOf i).length = if i < 4 then 4 else 9 := by
  unfold templateOf X86_64_HWCAPS_INDEX
  split <;> rfl

theorem templateOf_length_mono {i j : Nat} (h : i ≤ j) :
    (templateOf i).length ≤ (templateOf j).length := by
  rw [templateOf_length, templateOf_length]
  split <;> split <;> omega

theorem templateOf_succ_eq {i : Nat} (h : i ≠ 3) : templateOf (i + 1) = templateOf i := by
  unfold templateOf X86_64_HWCAPS_INDEX
  rcases Nat.lt_or_ge i 4 with hi | hi
  · rw [if_pos hi, if_pos (by omega)]
  · rw [if_neg (by omega), if_neg (by omega)]

theorem version_index_scan_lt (i : Nat) :
    version_index_scan (templateOf i) 0 0 < (templateOf i).length := by
  unfold templateOf X86_64_HWCAPS_INDEX
  split <;> decide

theorem nameBytes_length (i : Nat) : (nameBytes i).length = (templateOf i).length :=
  List.length_set ..

theorem nameBytes_ne_zero {i : Nat} (hi : i ≤ 7) : ∀ b ∈ nameBytes i, b ≠ 0 := by
  have h : ∀ j < 8, ∀ b ∈ nameBytes j, b ≠ 0 := by decide
  exact h i (by omega)

theorem hwcapsDir_ne_zero : ∀ b ∈ hwcapsDir, b ≠ 0 := by decide

theorem takeWhile_append_of_forall {p : Nat → Bool} :
    ∀ {a : List Nat} (b : List Nat), (∀ x ∈ a, p x = true) →
      (a ++ b).takeWhile p = a ++ b.takeWhile p
  | [], b, _ => rfl
  | x :: a, b, h => by
    have hx : p x = true := h x (List.mem_cons_self x a)
    simp only [List.cons_append, List.takeWhile_cons, hx, if_true]
    rw [takeWhile_append_of_forall b (fun y hy => h y (List.mem_cons_of_mem x hy))]

theorem cstrBytes_append_zero (a junk : List Nat) (h : ∀ x ∈ a, x ≠ 0) :
    cstrBytes (a ++ 0 :: junk) = a := by
  unfold cstrBytes
  rw [takeWhile_append_of_forall (0 :: junk) (fun x hx => by
    simpa using h x hx)]
  simp

theorem descList_eq_range_reverse : ∀ n : Nat, (List.range (n + 1)).reverse = descList n
  | 0 => rfl
  | n + 1 => by
    rw [List.range_succ, List.reverse_append, descList]
    simp [descList_eq_range_reverse n]

theorem descList_length : ∀ n : Nat, (descList n).length = n + 1
  | 0 => rfl
  | n + 1 => by simp [descList, descList_length n]

theorem mem_descList {i : Nat} : ∀ {n : Nat}, i ∈ descList n ↔ i ≤ n
  | 0 => by simp [descList, Nat.le_zero]
  | n + 1 => by
    simp only [descList, List.mem_cons, mem_descList (n := n)]
    omega

theorem take_len_append {a : List Nat} (b : List Nat) {n : Nat} (h : a.length = n) :
    (a ++ b).take n = a := List.take_left' h

theorem drop_len_append {a : List Nat} (b : List Nat) {n : Nat} (h : a.length = n) :
    (a ++ b).drop n = b := List.drop_left' h

/-- Writing one byte at the recorded version-character index only touches the
architecture-name segment of the constructed path. -/
theorem set_at_version_index (ui : Nat) (pre sh junk L : List Nat) (i : Nat) (d : Nat)
    (hpre : pre.length = ui + 1) (hL : L.length = (templateOf i).length) :
    (pre ++ hwcapsDir ++ L ++ sh ++ 0 :: junk).set
        (version_index_scan (templateOf i) 0 0 + (ui + 1 + hwcapsDir.length)) d
      = pre ++ hwcapsDir ++ L.set (version_index_scan (templateOf i) 0 0) d ++ sh
          ++ 0 :: junk := by
  have hsvi := version_index_scan_lt i
  have hA : (pre ++ hwcapsDir).length = ui + 8 := by
    simp [hpre, hwcapsDir_length]
  rw [List.set_append_left _ _ (by
    simp only [List.length_append, hpre, hwcapsDir_length]; omega)]
  rw [List.set_append_left _ _ (by
    simp only [List.length_append, hpre, hwcapsDir_length]; omega)]
  rw [List.set_append_right _ _ (by rw [hA, hwcapsDir_length]; omega)]
  have hsub : version_index_scan (templateOf i) 0 0 + (ui + 1 + hwcapsDir.length)
      - (pre ++ hwcapsDir).length = version_index_scan (templateOf i) 0 0 := by
    rw [hA, hwcapsDir_length]; omega
  rw [hsub]

/-- Evaluation of the formatting block (main.rs lines 271-289) on a buffer of
the invariant shape: the template is written after the `hwcaps/` segment,
the command suffix and terminating 0 byte follow, and the recorded
version-character index and path length are as stated. -/
theorem loop_body_format_ok (ui : Nat) (pre sh tail : List Nat) (i : Nat) (s : LoopState)
    (hpre : pre.length = ui + 1)
    (htp : s.target_path = pre ++ hwcapsDir ++ tail)
    (hmf : s.must_format_arch = true)
    (hlen : s.target_path.length = MAX_PATH_LEN)
    (hsz : ui + 8 + (templateOf i).length + sh.length + 1 ≤ MAX_PATH_LEN) :
    loop_body_format ui sh i s =
      .ok { target_path := pre ++ hwcapsDir ++ templateOf i ++ sh
              ++ 0 :: tail.drop ((templateOf i).length + sh.length + 1),
            must_format_arch := false,
            version_char_index := version_index_scan (templateOf i) 0 0
              + (ui + 1 + hwcapsDir.length),
            path_len := (ui + 1 + hwcapsDir.length) + (templateOf i).length
              + sh.length + 1 } := by
  have h7 : hwcapsDir.length = 7 := rfl
  have hA : (pre ++ hwcapsDir).length = ui + 8 := by
    simp [hpre, hwcapsDir_length]
  have hT : ui + 8 + tail.length = MAX_PATH_LEN := by
    rw [htp] at hlen
    simp only [List.length_append, hpre, hwcapsDir_length] at hlen
    omega
  have hdrop : s.target_path.drop (ui + 1 + hwcapsDir.length) = tail := by
    rw [htp]
    exact drop_len_append _ (by rw [hA, hwcapsDir_length])
  have htake : s.target_path.take (ui + 1 + hwcapsDir.length) = pre ++ hwcapsDir := by
    rw [htp]
    exact take_len_append _ (by rw [hA, hwcapsDir_length])
  unfold loop_body_format
  rw [hmf]
  simp only [if_true]
  unfold format_arch_name
  rw [hdrop]
  rw [if_neg (by omega)]
  simp only
  rw [htake]
  rw [if_neg (by omega)]
  apply congrArg Except.ok
  congr 1
  -- the buffer computation: regroup, then rewrite the take, drop and set
  have e0 : pre ++ hwcapsDir ++ (templateOf i ++ tail.drop (templateOf i).length)
      = pre ++ hwcapsDir ++ templateOf i ++ tail.drop (templateOf i).length :=
    (List.append_assoc _ _ _).symm
  have hAT : (pre ++ hwcapsDir ++ templateOf i).length
      = ui + 8 + (templateOf i).length := by
    simp only [List.length_append, hpre, hwcapsDir_length]
    try omega
  unfold writeSlice
  rw [e0]
  have htake2 : (pre ++ hwcapsDir ++ templateOf i ++ tail.drop (templateOf i).length).take
      (ui + 1 + hwcapsDir.length + (templateOf i).length)
      = pre ++ hwcapsDir ++ templateOf i :=
    take_len_append _ (by rw [hAT, hwcapsDir_length])
  have hdrop2 : (pre ++ hwcapsDir ++ templateOf i ++ tail.drop (templateOf i).length).drop
      (ui + 1 + hwcapsDir.length + (templateOf i).length + sh.length)
      = tail.drop ((templateOf i).length + sh.length) := by
    have hidx : ui + 1 + hwcapsDir.length + (templateOf i).length + sh.length
        = (pre ++ hwcapsDir ++ templateOf i).length + sh.length := by
      rw [hAT, hwcapsDir_length]
    rw [hidx, List.drop_append, List.drop_drop]
  rw [htake2, hdrop2]
  -- now the final 0-byte write
  have hz : (tail.drop ((templateOf i).length + sh.length)).length
      = tail.length - ((templateOf i).length + sh.length) := List.length_drop ..
  have hzpos : 0 < (tail.drop ((templateOf i).length + sh.length)).length := by omega
  have regroup : pre ++ hwcapsDir ++ templateOf i
        ++ (sh ++ tail.drop ((templateOf i).length + sh.length))
      = pre ++ hwcapsDir ++ templateOf i ++ sh
        ++ tail.drop ((templateOf i).length + sh.length) :=
    (List.append_assoc _ _ _).symm
  rw [List.append_assoc (pre ++ hwcapsDir ++ templateOf i), regroup]
  have hATS : (pre ++ hwcapsDir ++ templateOf i ++ sh).length
      = ui + 8 + (templateOf i).length + sh.length := by
    simp only [List.length_append, hpre, hwcapsDir_length]
    try omega
  rw [List.set_append_right _ _ (by rw [hATS, hwcapsDir_length]; try omega)]
  have hsub2 : ui + 1 + hwcapsDir.length + (templateOf i).length + sh.length
      - (pre ++ hwcapsDir ++ templateOf i ++ sh).length = 0 := by
    rw [hATS, hwcapsDir_length]; omega
  rw [hsub2]
  obtain ⟨c, z, hcz⟩ := List.exists_cons_of_ne_nil (List.ne_nil_of_length_pos hzpos)
  rw [hcz]
  have hztail : z = tail.drop ((templateOf i).length + sh.length + 1) := by
    have h := List.tail_drop tail ((templateOf i).length + sh.length)
    rw [hcz] at h
    simpa using h
  rw [show (c :: z).set 0 0 = 0 :: z from rfl, hztail]

theorem arch_name_changed_iff (i : Nat) : arch_name_changed i = true ↔ i = 3 := by
  simp only [arch_name_changed, X86_64_HWCAPS_INDEX, beq_iff_eq]
  omega

theorem ite_mf_true {s : LoopState} (hmf : s.must_format_arch = true) (c : Bool) :
    (if c then { s with must_format_arch := true } else s) = s := by
  cases c
  · rfl
  · obtain ⟨tp, mf, vc, pl⟩ := s
    simp only at hmf
    simp [hmf]

/-- One full iteration starting from a state with formatting pending:
the result is the completed candidate buffer for tier `i`. -/
theorem iter_state_of_pending (ui : Nat) (pre sh tail : List Nat) (i : Nat) (s : LoopState)
    (hpre : pre.length = ui + 1)
    (htp : s.target_path = pre ++ hwcapsDir ++ tail)
    (hmf : s.must_format_arch = true)
    (hlen : s.target_path.length = MAX_PATH_LEN)
    (hsz : ui + 8 + (templateOf i).length + sh.length + 1 ≤ MAX_PATH_LEN) :
    iter_state ui sh i s =
      .ok { target_path := pre ++ hwcapsDir ++ nameBytes i ++ sh
              ++ 0 :: tail.drop ((templateOf i).length + sh.length + 1),
            must_format_arch := false,
            version_char_index := version_index_scan (templateOf i) 0 0
              + (ui + 1 + hwcapsDir.length),
            path_len := (ui + 1 + hwcapsDir.length) + (templateOf i).length
              + sh.length + 1 } := by
  unfold iter_state
  rw [ite_mf_true hmf]
  dsimp only
  rw [loop_body_format_ok ui pre sh tail i s hpre htp hmf hlen hsz]
  dsimp only
  apply congrArg Except.ok
  congr 1
  exact set_at_version_index ui pre sh (tail.drop ((templateOf i).length + sh.length + 1))
    (templateOf i) i (HWCAPS_CHARS.getD i 0) hpre rfl

/-- One full iteration from any state satisfying the loop invariant: the
attempted buffer is the completed candidate for tier `i`, and the
invariant data for the next (lower) tier is re-established. -/
theorem iter_state_ok (ui : Nat) (pre sh : List Nat) (i : Nat) (s : LoopState)
    (hpre : pre.length = ui + 1)
    (hsz : ui + 8 + (templateOf i).length + sh.length + 1 ≤ MAX_PATH_LEN)
    (hinv : LoopInv ui pre sh i s) :
    ∃ junk pl,
      iter_state ui sh i s =
        .ok { target_path := pre ++ hwcapsDir ++ nameBytes i ++ sh ++ 0 :: junk,
              must_format_arch := false,
              version_char_index := version_index_scan (templateOf i) 0 0
                + (ui + 1 + hwcapsDir.length),
              path_len := pl }
      ∧ (pre ++ hwcapsDir ++ nameBytes i ++ sh ++ 0 :: junk).length = MAX_PATH_LEN := by
  obtain ⟨hlen, hcase⟩ := hinv
  have h7 : hwcapsDir.length = 7 := rfl
  rcases hcase with ⟨hmf, tail, htp⟩ | ⟨hmf, hvc, junk, htp⟩
  · -- formatting pending
    refine ⟨tail.drop ((templateOf i).length + sh.length + 1),
      (ui + 1 + hwcapsDir.length) + (templateOf i).length + sh.length + 1,
      iter_state_of_pending ui pre sh tail i s hpre htp hmf hlen hsz, ?_⟩
    rw [htp] at hlen
    simp only [List.length_append, List.length_cons, List.length_drop, hpre,
      hwcapsDir_length, nameBytes_length] at hlen ⊢
    omega
  · by_cases hch : arch_name_changed i = true
    · -- family boundary: the whole name is reformatted
      have hi3 : i = 3 := (arch_name_changed_iff i).mp hch
      have htp' : s.target_path
          = pre ++ hwcapsDir ++ (nameBytes (i + 1) ++ sh ++ 0 :: junk) := by
        rw [htp]; simp [List.append_assoc]
      -- must_format_arch is false here, but the boundary test raises it
      have hs1 : (if arch_name_changed i then { s with must_format_arch := true } else s)
          = { s with must_format_arch := true } := by rw [hch]; rfl
      refine ⟨(nameBytes (i + 1) ++ sh ++ 0 :: junk).drop
          ((templateOf i).length + sh.length + 1),
        (ui + 1 + hwcapsDir.length) + (templateOf i).length + sh.length + 1, ?_, ?_⟩
      · unfold iter_state
        rw [hs1]
        dsimp only
        rw [loop_body_format_ok ui pre sh (nameBytes (i + 1) ++ sh ++ 0 :: junk) i
          { s with must_format_arch := true } hpre (by simpa using htp') rfl
          (by simpa using hlen) hsz]
        dsimp only
        apply congrArg Except.ok
        congr 1
        exact set_at_version_index ui pre sh _ (templateOf i) i (HWCAPS_CHARS.getD i 0)
          hpre rfl
      · rw [htp'] at hlen
        simp only [List.length_append, List.length_cons, List.length_drop, hpre,
          hwcapsDir_length, nameBytes_length] at hlen ⊢
        omega
    · -- same family: only the version character is overwritten
      have hne3 : i ≠ 3 := fun h => hch ((arch_name_changed_iff i).mpr h)
      have hte : templateOf (i + 1) = templateOf i := templateOf_succ_eq hne3
      have hchf : arch_name_changed i = false := by
        cases hx : arch_name_changed i
        · rfl
        · exact absurd hx hch
      refine ⟨junk, s.path_len, ?_, ?_⟩
      · unfold iter_state
        rw [hchf]
        simp only [Bool.false_eq_true, if_false]
        rw [show loop_body_format ui sh i s = .ok s from by
          unfold loop_body_format; rw [hmf]; rfl]
        dsimp only
        apply congrArg Except.ok
        have hset : s.target_path.set s.version_char_index (HWCAPS_CHARS.getD i 0)
            = pre ++ hwcapsDir ++ nameBytes i ++ sh ++ 0 :: junk := by
          rw [htp, hvc, hte]
          rw [set_at_version_index ui pre sh junk (nameBytes (i + 1)) i
            (HWCAPS_CHARS.getD i 0) hpre (by rw [nameBytes_length, hte])]
          have hnb : (nameBytes (i + 1)).set (version_index_scan (templateOf i) 0 0)
              (HWCAPS_CHARS.getD i 0) = nameBytes i := by
            unfold nameBytes
            rw [hte, List.set_set]
          rw [hnb]
        obtain ⟨tp, mf, vc, pl⟩ := s
        simp only at hmf hvc hset ⊢
        rw [hmf, hset, hvc, hte]
      · rw [htp] at hlen
        simp only [List.length_append, List.length_cons, hpre, hwcapsDir_length,
          nameBytes_length, hte] at hlen ⊢
        omega

/-- The C-string actually handed to execve is exactly the candidate path. -/
theorem cstr_candidate (pre sh junk : List Nat) (i : Nat) (hi : i ≤ 7)
    (h0p : ∀ b ∈ pre, b ≠ 0) (h0s : ∀ b ∈ sh, b ≠ 0) :
    cstrBytes (pre ++ hwcapsDir ++ nameBytes i ++ sh ++ 0 :: junk) = candidate pre sh i := by
  have hall : ∀ b ∈ pre ++ hwcapsDir ++ nameBytes i ++ sh, b ≠ 0 := by
    intro b hb
    simp only [List.mem_append] at hb
    rcases hb with ((hb | hb) | hb) | hb
    · exact h0p b hb
    · exact hwcapsDir_ne_zero b hb
    · exact nameBytes_ne_zero hi b hb
    · exact h0s b hb
  exact cstrBytes_append_zero _ junk hall

/-- The fallback loop, started anywhere in the invariant, attempts exactly
the candidate paths of the descending tier list. -/
theorem run_tiers_eq_runClean (exec : List Nat → Option Nat) (ui : Nat)
    (pre sh : List Nat) (hpre : pre.length = ui + 1)
    (h0p : ∀ b ∈ pre, b ≠ 0) (h0s : ∀ b ∈ sh, b ≠ 0) :
    ∀ i, i ≤ 7 → ui + 8 + (templateOf i).length + sh.length + 1 ≤ MAX_PATH_LEN →
    ∀ s, LoopInv ui pre sh i s →
      run_tiers exec ui sh (descList i) s = runClean exec pre sh (descList i) := by
  intro i
  induction i with
  | zero =>
    intro hi hsz s hinv
    obtain ⟨junk, pl, hiter, hlen'⟩ := iter_state_ok ui pre sh 0 s hpre hsz hinv
    simp only [descList, run_tiers, runClean, hiter]
    rw [cstr_candidate pre sh junk 0 (by omega) h0p h0s]
  | succ i ih =>
    intro hi hsz s hinv
    obtain ⟨junk, pl, hiter, hlen'⟩ := iter_state_ok ui pre sh (i + 1) s hpre hsz hinv
    have hszi : ui + 8 + (templateOf i).length + sh.length + 1 ≤ MAX_PATH_LEN := by
      have := templateOf_length_mono (show i ≤ i + 1 by omega)
      omega
    simp only [descList, run_tiers, runClean, hiter]
    rw [cstr_candidate pre sh junk (i + 1) hi h0p h0s]
    cases hex : exec (candidate pre sh (i + 1)) with
    | none => rfl
    | some e =>
      by_cases he : e = ENOENT
      · simp only [he, if_true]
        have hrec := ih (by omega) hszi
          { target_path := pre ++ hwcapsDir ++ nameBytes (i + 1) ++ sh ++ 0 :: junk,
            must_format_arch := false,
            version_char_index := version_index_scan (templateOf (i + 1)) 0 0
              + (ui + 1 + hwcapsDir.length),
            path_len := pl }
          ⟨hlen', Or.inr ⟨rfl, rfl, junk, rfl⟩⟩
        rw [hrec]
      · simp only [if_neg he]

/-- One full iteration of the always-reformat reference loop. -/
theorem iter_state_full_of (ui : Nat) (pre sh tail : List Nat) (i : Nat) (s : LoopState)
    (hpre : pre.length = ui + 1)
    (htp : s.target_path = pre ++ hwcapsDir ++ tail)
    (hlen : s.target_path.length = MAX_PATH_LEN)
    (hsz : ui + 8 + (templateOf i).length + sh.length + 1 ≤ MAX_PATH_LEN) :
    iter_state_full ui sh i s =
      .ok { target_path := pre ++ hwcapsDir ++ nameBytes i ++ sh
              ++ 0 :: tail.drop ((templateOf i).length + sh.length + 1),
            must_format_arch := false,
            version_char_index := version_index_scan (templateOf i) 0 0
              + (ui + 1 + hwcapsDir.length),
            path_len := (ui + 1 + hwcapsDir.length) + (templateOf i).length
              + sh.length + 1 } := by
  unfold iter_state_full
  dsimp only
  rw [loop_body_format_ok ui pre sh tail i { s with must_format_arch := true } hpre
    (by simpa using htp) rfl (by simpa using hlen) hsz]
  dsimp only
  apply congrArg Except.ok
  congr 1
  exact set_at_version_index ui pre sh (tail.drop ((templateOf i).length + sh.length + 1))
    (templateOf i) i (HWCAPS_CHARS.getD i 0) hpre rfl

/-- The always-reformat reference loop also attempts exactly the candidate
paths of the descending tier list. -/
theorem run_tiers_full_eq_runClean (exec : List Nat → Option Nat) (ui : Nat)
    (pre sh : List Nat) (hpre : pre.length = ui + 1)
    (h0p : ∀ b ∈ pre, b ≠ 0) (h0s : ∀ b ∈ sh, b ≠ 0) :
    ∀ i, i ≤ 7 → ui + 8 + (templateOf i).length + sh.length + 1 ≤ MAX_PATH_LEN →
    ∀ s, LoopInvFull ui pre s →
      run_tiers_full exec ui sh (descList i) s = runClean exec pre sh (descList i) := by
  intro i
  have hstep : ∀ j, j ≤ 7 → ui + 8 + (templateOf j).length + sh.length + 1 ≤ MAX_PATH_LEN →
      ∀ s, LoopInvFull ui pre s →
      ∃ junk, iter_state_full ui sh j s =
          .ok { target_path := pre ++ hwcapsDir ++ nameBytes j ++ sh ++ 0 :: junk,
                must_format_arch := false,
                version_char_index := version_index_scan (templateOf j) 0 0
                  + (ui + 1 + hwcapsDir.length),
                path_len := (ui + 1 + hwcapsDir.length) + (templateOf j).length
                  + sh.length + 1 }
        ∧ (pre ++ hwcapsDir ++ nameBytes j ++ sh ++ 0 :: junk).length = MAX_PATH_LEN := by
    intro j hj hsz s hinv
    obtain ⟨hlen, tail, htp⟩ := hinv
    refine ⟨tail.drop ((templateOf j).length + sh.length + 1),
      iter_state_full_of ui pre sh tail j s hpre htp hlen hsz, ?_⟩
    rw [htp] at hlen
    simp only [List.length_append, List.length_cons, List.length_drop, hpre,
      hwcapsDir_length, nameBytes_length] at hlen ⊢
    omega
  induction i with
  | zero =>
    intro hi hsz s hinv
    obtain ⟨junk, hiter, hlen'⟩ := hstep 0 (by omega) hsz s hinv
    simp only [descList, run_tiers_full, runClean, hiter]
    rw [cstr_candidate pre sh junk 0 (by omega) h0p h0s]
  | succ i ih =>
    intro hi hsz s hinv
    obtain ⟨junk, hiter, hlen'⟩ := hstep (i + 1) hi hsz s hinv
    have hszi : ui + 8 + (templateOf i).length + sh.length + 1 ≤ MAX_PATH_LEN := by
      have := templateOf_length_mono (show i ≤ i + 1 by omega)
      omega
    simp only [descList, run_tiers_full, runClean, hiter]
    rw [cstr_candidate pre sh junk (i + 1) hi h0p h0s]
    cases hex : exec (candidate pre sh (i + 1)) with
    | none => rfl
    | some e =>
      by_cases he : e = ENOENT
      · simp only [he, if_true]
        have hrec := ih (by omega) hszi
          { target_path := pre ++ hwcapsDir ++ nameBytes (i + 1) ++ sh ++ 0 :: junk,
            must_format_arch := false,
            version_char_index := version_index_scan (templateOf (i + 1)) 0 0
              + (ui + 1 + hwcapsDir.length),
            path_len := (ui + 1 + hwcapsDir.length) + (templateOf (i + 1)).length
              + sh.length + 1 }
          ⟨hlen', nameBytes (i + 1) ++ sh ++ 0 :: junk, by simp [List.append_assoc]⟩
        rw [hrec]
      · simp only [if_neg he]

/-- The fallback machinery of main.rs, from entry, attempts exactly the
candidate paths for tiers `feature_level, ..., 0` in that order. -/
theorem run_loop_eq_runClean (exec : List Nat → Option Nat) (exec_path : List Nat)
    (ui fl : Nat) (sh : List Nat)
    (hexp : exec_path.length = MAX_PATH_LEN)
    (hfl : fl ≤ 7)
    (hsz : ui + 8 + (templateOf fl).length + sh.length + 1 ≤ MAX_PATH_LEN)
    (h0p : ∀ b ∈ exec_path.take (ui + 1), b ≠ 0)
    (h0s : ∀ b ∈ sh, b ≠ 0) :
    run_loop exec exec_path ui sh fl
      = runClean exec (exec_path.take (ui + 1)) sh (descList fl) := by
  have hm : MAX_PATH_LEN = 4096 := rfl
  have hpre : (exec_path.take (ui + 1)).length = ui + 1 := by
    simp only [List.length_take, hexp]
    omega
  unfold run_loop
  rw [if_neg (by rw [hwcapsDir_length]; omega)]
  rw [descList_eq_range_reverse fl]
  apply run_tiers_eq_runClean exec ui _ sh hpre h0p h0s fl hfl hsz
  constructor
  · unfold writeSlice
    simp only [List.length_append, List.length_take, List.length_drop, hexp,
      hwcapsDir_length]
    omega
  · exact Or.inl ⟨rfl, exec_path.drop (ui + 1 + hwcapsDir.length), rfl⟩

/-- Same, for the always-reformat reference variant. -/
theorem run_loop_full_eq_runClean (exec : List Nat → Option Nat) (exec_path : List Nat)
    (ui fl : Nat) (sh : List Nat)
    (hexp : exec_path.length = MAX_PATH_LEN)
    (hfl : fl ≤ 7)
    (hsz : ui + 8 + (templateOf fl).length + sh.length + 1 ≤ MAX_PATH_LEN)
    (h0p : ∀ b ∈ exec_path.take (ui + 1), b ≠ 0)
    (h0s : ∀ b ∈ sh, b ≠ 0) :
    run_loop_full exec exec_path ui sh fl
      = runClean exec (exec_path.take (ui + 1)) sh (descList fl) := by
  have hm : MAX_PATH_LEN = 4096 := rfl
  have hpre : (exec_path.take (ui + 1)).length = ui + 1 := by
    simp only [List.length_take, hexp]
    omega
  unfold run_loop_full
  rw [if_neg (by rw [hwcapsDir_length]; omega)]
  rw [descList_eq_range_reverse fl]
  apply run_tiers_full_eq_runClean exec ui _ sh hpre h0p h0s fl hfl hsz
  constructor
  · unfold writeSlice
    simp only [List.length_append, List.length_take, List.length_drop, hexp,
      hwcapsDir_length]
    omega
  · exact ⟨exec_path.drop (ui + 1 + hwcapsDir.length), rfl⟩

/-- Behaviour of the idealized loop: exhaustion means every attempt got
ENOENT and every tier was attempted; a target-execution-error outcome comes
from a non-ENOENT errno on an attempted path; the all-ENOENT oracle yields
exhaustion with the full candidate trace. -/
theorem runClean_facts (exec : List Nat → Option Nat) (pre sh : List Nat) :
    ∀ tiers : List Nat,
      ((runClean exec pre sh tiers).1 = .targetNoViableBinaries →
        (runClean exec pre sh tiers).2.length = tiers.length ∧
        ∀ p ∈ (runClean exec pre sh tiers).2, exec p = some ENOENT) ∧
      (∀ p e, (runClean exec pre sh tiers).1 = .targetExecutionError p e →
        exec p = some e ∧ e ≠ ENOENT ∧ p ∈ (runClean exec pre sh tiers).2) ∧
      ((∀ q, exec q = some ENOENT) →
        (runClean exec pre sh tiers).1 = .targetNoViableBinaries ∧
        (runClean exec pre sh tiers).2 = tiers.map (candidate pre sh)) := by
  intro tiers
  induction tiers with
  | nil =>
    refine ⟨fun _ => ⟨rfl, by simp [runClean]⟩, fun p e h => ?_, fun _ => ⟨rfl, rfl⟩⟩
    exact absurd h (by simp [runClean])
  | cons i rest ih =>
    simp only [runClean]
    cases hex : exec (candidate pre sh i) with
    | none =>
      refine ⟨fun h => absurd h (by simp), fun p e h => absurd h (by simp), fun hall => ?_⟩
      rw [hall (candidate pre sh i)] at hex
      exact absurd hex (by simp)
    | some e =>
      by_cases he : e = ENOENT
      · simp only [he, if_true]
        refine ⟨fun h => ?_, fun p e' h => ?_, fun hall => ?_⟩
        · obtain ⟨hl, hmem⟩ := ih.1 h
          refine ⟨by simp [hl], ?_⟩
          intro p hp
          rcases List.mem_cons.mp hp with rfl | hp
          · rw [hex, he]
          · exact hmem p hp
        · obtain ⟨h1, h2, h3⟩ := ih.2.1 p e' h
          exact ⟨h1, h2, List.mem_cons_of_mem _ h3⟩
        · obtain ⟨h1, h2⟩ := ih.2.2 hall
          exact ⟨h1, by simp [h2]⟩
      · simp only [if_neg he]
        refine ⟨fun h => absurd h (by simp), fun p e' h => ?_, fun hall => ?_⟩
        · simp only [Prod.fst] at h
          obtain ⟨rfl, rfl⟩ : p = candidate pre sh i ∧ e' = e := by
            cases h
            exact ⟨rfl, rfl⟩
          exact ⟨hex, he, by simp⟩
        · rw [hall (candidate pre sh i)] at hex
          cases hex
          exact absurd rfl he

/-- The first attempted path of the idealized loop over a nonempty tier list. -/
theorem runClean_trace_head (exec : List Nat → Option Nat) (pre sh : List Nat)
    (i : Nat) (rest : List Nat) :
    (runClean exec pre sh (i :: rest)).2.head? = some (candidate pre sh i) := by
  simp only [runClean]
  cases hex : exec (candidate pre sh i) with
  | none => rfl
  | some e =>
    by_cases he : e = ENOENT
    · simp [he]
    · simp [he]

/-- Every attempted path of the idealized loop is the full candidate path of
one of the tiers (no truncation). -/
theorem runClean_trace_mem (exec : List Nat → Option Nat) (pre sh : List Nat) :
    ∀ tiers p, p ∈ (runClean exec pre sh tiers).2 →
      ∃ i, i ∈ tiers ∧ p = candidate pre sh i := by
  intro tiers
  induction tiers with
  | nil => intro p hp; exact absurd hp (by simp [runClean])
  | cons i rest ih =>
    intro p hp
    simp only [runClean] at hp
    cases hex : exec (candidate pre sh i) with
    | none =>
      rw [hex] at hp
      dsimp only at hp
      simp only [List.mem_singleton] at hp
      exact ⟨i, by simp, hp⟩
    | some e =>
      rw [hex] at hp
      dsimp only at hp
      by_cases he : e = ENOENT
      · rw [if_pos he] at hp
        rcases List.mem_cons.mp hp with rfl | hp
        · exact ⟨i, by simp, rfl⟩
        · obtain ⟨j, hj, hpj⟩ := ih p hp
          exact ⟨j, by simp [hj], hpj⟩
      · rw [if_neg he] at hp
        simp only [List.mem_singleton] at hp
        exact ⟨i, by simp, hp⟩

/-! ## Bit-mask lemmas for the feature detector -/

theorem land_self_iff {x m : Nat} :
    x &&& m = m ↔ ∀ i, m.testBit i = true → x.testBit i = true := by
  constructor
  · intro h i him
    have hbit := congrArg (fun n => n.testBit i) h
    simp only [Nat.testBit_land] at hbit
    rw [him, Bool.and_true] at hbit
    exact hbit
  · intro h
    apply Nat.eq_of_testBit_eq
    intro i
    rw [Nat.testBit_land]
    cases hm : m.testBit i
    · simp
    · simp [h i hm]

theorem land_lor_self_iff {x a b : Nat} :
    x &&& (a ||| b) = (a ||| b) ↔ (x &&& a = a ∧ x &&& b = b) := by
  rw [land_self_iff, land_self_iff, land_self_iff]
  constructor
  · intro h
    refine ⟨fun i hi => h i ?_, fun i hi => h i ?_⟩
    · rw [Nat.testBit_lor, hi, Bool.true_or]
    · rw [Nat.testBit_lor, hi, Bool.or_true]
  · rintro ⟨ha, hb⟩ i hi
    rw [Nat.testBit_lor] at hi
    rcases Bool.or_eq_true_iff.mp hi with hi | hi
    · exact ha i hi
    · exact hb i hi

/-- Once the v3 leaf-7 bits are confirmed, the source's v4 mask test is
equivalent to testing only the five AVX-512 bits. -/
theorem v4_mask_iff (e : Nat)
    (h3 : e &&& X86_64_V3_HWCAPS_07H_EBX = X86_64_V3_HWCAPS_07H_EBX) :
    (e &&& X86_64_V4_HWCAPS_07H_EBX = X86_64_V4_HWCAPS_07H_EBX)
      ↔ (e &&& 3489857536 = 3489857536) := by
  have hsplit : X86_64_V4_HWCAPS_07H_EBX
      = X86_64_V3_HWCAPS_07H_EBX ||| 3489857536 := by
    decide
  rw [hsplit, land_lor_self_iff]
  constructor
  · exact fun h => h.2
  · exact fun h => ⟨h3, h⟩

/-- The source's 64-bit detector agrees with the claim's description of it
at every register valuation. -/
theorem get_max_feature_level_64_eq_claimed (a b c d e : Nat) :
    get_max_feature_level_64 a b c d e = claimed_max_feature_level_x86_64 a b c d e := by
  unfold get_max_feature_level_64 claimed_max_feature_level_x86_64
  dsimp only
  rw [show (2 ^ 0 + 2 ^ 9 + 2 ^ 13 + 2 ^ 19 + 2 ^ 20 : Nat)
      = X86_64_V2_HWCAPS_01H_ECX from by decide]
  rw [show (X86_64_V2_HWCAPS_01H_ECX + 2 ^ 12 + 2 ^ 22 + 2 ^ 27 + 2 ^ 28 + 2 ^ 29 : Nat)
      = X86_64_V3_HWCAPS_01H_ECX from by decide]
  rw [show (2 ^ 3 + 2 ^ 5 + 2 ^ 8 : Nat) = X86_64_V3_HWCAPS_07H_EBX from by decide]
  rw [show (2 ^ 0 : Nat) = X86_64_V2_HWCAPS_80000001H_ECX from by decide]
  rw [show (X86_64_V2_HWCAPS_80000001H_ECX + 2 ^ 5 : Nat)
      = X86_64_V3_HWCAPS_80000001H_ECX from by decide]
  by_cases hA : a < 0x80000001
  · simp [hA, X86_64_HWCAPS_INDEX]
  by_cases h1 : b &&& X86_64_V2_HWCAPS_01H_ECX = X86_64_V2_HWCAPS_01H_ECX
  case neg => simp [hA, h1, X86_64_HWCAPS_INDEX]
  by_cases h2 : c &&& X86_64_V2_HWCAPS_80000001H_ECX = X86_64_V2_HWCAPS_80000001H_ECX
  case neg => simp [hA, h1, h2, X86_64_HWCAPS_INDEX]
  by_cases hB : d < 7
  · simp [hA, h1, h2, hB, X86_64_HWCAPS_INDEX]
  by_cases h3a : b &&& X86_64_V3_HWCAPS_01H_ECX = X86_64_V3_HWCAPS_01H_ECX
  case neg => simp [hA, h1, h2, hB, h3a, X86_64_HWCAPS_INDEX]
  by_cases h3b : e &&& X86_64_V3_HWCAPS_07H_EBX = X86_64_V3_HWCAPS_07H_EBX
  case neg => simp [hA, h1, h2, hB, h3a, h3b, X86_64_HWCAPS_INDEX]
  by_cases h3c : c &&& X86_64_V3_HWCAPS_80000001H_ECX = X86_64_V3_HWCAPS_80000001H_ECX
  case neg => simp [hA, h1, h2, hB, h3a, h3b, h3c, X86_64_HWCAPS_INDEX]
  by_cases hD : e &&& 3489857536 = 3489857536
  · have hV4 : e &&& X86_64_V4_HWCAPS_07H_EBX = X86_64_V4_HWCAPS_07H_EBX :=
      (v4_mask_iff e h3b).mpr hD
    simp [hA, h1, h2, hB, h3a, h3b, h3c, hD, hV4, X86_64_HWCAPS_INDEX]
  · have hV4 : ¬(e &&& X86_64_V4_HWCAPS_07H_EBX = X86_64_V4_HWCAPS_07H_EBX) :=
      fun h => hD ((v4_mask_iff e h3b).mp h)
    simp [hA, h1, h2, hB, h3a, h3b, h3c, hD, hV4, X86_64_HWCAPS_INDEX]


/-- The 32-bit detector returns a tier whose whole requirement chain is met
and, below the top tier, whose successor requirement is unmet: it stops at
the first failing tier. -/
theorem get_max_feature_level_32_spec (b : Nat) :
    (∀ j, j ≤ get_max_feature_level_32 b → meets32 b j) ∧
    (get_max_feature_level_32 b < 3 → ¬ meets32 b (get_max_feature_level_32 b + 1)) ∧
    get_max_feature_level_32 b ≤ 3 := by
  by_cases hb : b = 0
  · have hres : get_max_feature_level_32 b = 0 := by
      unfold get_max_feature_level_32
      rw [if_pos hb]
    rw [hres]
    refine ⟨fun j hj => ?_, fun _ hm => ?_, by omega⟩
    · interval_cases j
      trivial
    · exact hm.2.1 hb
  · have hres : get_max_feature_level_32 b = feature_level_loop_32 b [1, 2, 3] := by
      unfold get_max_feature_level_32
      rw [if_neg hb]
      rfl
    by_cases h1 : b &&& I486_HWCAPS = I486_HWCAPS
    · by_cases h2 : b &&& I586_HWCAPS = I586_HWCAPS
      · by_cases h3 : b &&& I686_HWCAPS = I686_HWCAPS
        · have hv : feature_level_loop_32 b [1, 2, 3] = 3 := by
            simp [feature_level_loop_32, has_feature_32, h1, h2, h3]
          rw [hres, hv]
          refine ⟨fun j hj => ?_, by omega, by omega⟩
          interval_cases j
          · trivial
          · exact ⟨by omega, hb, h1⟩
          · exact ⟨by omega, hb, h2⟩
          · exact ⟨by omega, hb, h3⟩
        · have hv : feature_level_loop_32 b [1, 2, 3] = 2 := by
            simp [feature_level_loop_32, has_feature_32, h1, h2, h3]
          rw [hres, hv]
          refine ⟨fun j hj => ?_, fun _ hm => h3 hm.2.2, by omega⟩
          interval_cases j
          · trivial
          · exact ⟨by omega, hb, h1⟩
          · exact ⟨by omega, hb, h2⟩
      · have hv : feature_level_loop_32 b [1, 2, 3] = 1 := by
          simp [feature_level_loop_32, has_feature_32, h1, h2]
        rw [hres, hv]
        refine ⟨fun j hj => ?_, fun _ hm => h2 hm.2.2, by omega⟩
        interval_cases j
        · trivial
        · exact ⟨by omega, hb, h1⟩
    · have hv : feature_level_loop_32 b [1, 2, 3] = 0 := by
        simp [feature_level_loop_32, has_feature_32, h1]
      rw [hres, hv]
      refine ⟨fun j hj => ?_, fun _ hm => h1 hm.2.2, by omega⟩
      interval_cases j
      trivial

/-- The 64-bit detector returns a tier in the 64-bit family whose whole
requirement chain is met and, below the top tier, whose successor
requirement is unmet: it stops at the first failing tier. -/
theorem get_max_feature_level_64_spec (a b c d e : Nat) :
    (∀ j, 4 ≤ j → j ≤ get_max_feature_level_64 a b c d e → meets64 a b c d e j) ∧
    (get_max_feature_level_64 a b c d e < 7 →
      ¬ meets64 a b c d e (get_max_feature_level_64 a b c d e + 1)) ∧
    4 ≤ get_max_feature_level_64 a b c d e ∧ get_max_feature_level_64 a b c d e ≤ 7 := by
  unfold get_max_feature_level_64
  simp only [X86_64_HWCAPS_INDEX]
  by_cases hA : a < 0x80000001
  · rw [if_pos hA]
    refine ⟨fun j hj4 hj => ?_, fun _ hm => ?_, by omega, by omega⟩
    · have hj' : j = 4 := by
        simp only [X86_64_HWCAPS_INDEX] at hj
        omega
      subst hj'
      trivial
    · have h5 : (4 : Nat) + 1 = 5 := rfl
      rw [h5] at hm
      have := hm.1
      omega
  · rw [if_neg hA]
    by_cases h12 : ¬(b &&& X86_64_V2_HWCAPS_01H_ECX = X86_64_V2_HWCAPS_01H_ECX)
        ∨ ¬(c &&& X86_64_V2_HWCAPS_80000001H_ECX = X86_64_V2_HWCAPS_80000001H_ECX)
    · rw [if_pos h12]
      refine ⟨fun j hj4 hj => ?_, fun _ hm => ?_, by omega, by omega⟩
      · have hj' : j = 4 := by
          simp only [X86_64_HWCAPS_INDEX] at hj
          omega
        subst hj'
        trivial
      · have h5 : (4 : Nat) + 1 = 5 := rfl
        rw [h5] at hm
        obtain ⟨_, hm1, hm2⟩ := hm
        rcases h12 with h | h
        · exact h hm1
        · exact h hm2
    · rw [if_neg h12]
      push_neg at h12
      obtain ⟨h1, h2⟩ := h12
      by_cases hB : d < 0x7
      · rw [if_pos hB]
        refine ⟨fun j hj4 hj => ?_, fun _ hm => ?_, by omega, by omega⟩
        · have h5 : (4 : Nat) + 1 = 5 := rfl
          rw [h5] at hj
          interval_cases j
          · trivial
          · exact ⟨by omega, h1, h2⟩
        · have h6 : (4 : Nat) + 1 + 1 = 6 := rfl
          rw [h6] at hm
          have := hm.2.1
          omega
      · rw [if_neg hB]
        by_cases h3 : ¬(b &&& X86_64_V3_HWCAPS_01H_ECX = X86_64_V3_HWCAPS_01H_ECX)
            ∨ ¬(e &&& X86_64_V3_HWCAPS_07H_EBX = X86_64_V3_HWCAPS_07H_EBX)
            ∨ ¬(c &&& X86_64_V3_HWCAPS_80000001H_ECX = X86_64_V3_HWCAPS_80000001H_ECX)
        · rw [if_pos h3]
          refine ⟨fun j hj4 hj => ?_, fun _ hm => ?_, by omega, by omega⟩
          · have h5 : (4 : Nat) + 1 = 5 := rfl
            rw [h5] at hj
            interval_cases j
            · trivial
            · exact ⟨by omega, h1, h2⟩
          · have h6 : (4 : Nat) + 1 + 1 = 6 := rfl
            rw [h6] at hm
            obtain ⟨_, _, hm1, hm2, hm3⟩ := hm
            rcases h3 with h | h | h
            · exact h hm1
            · exact h hm3
            · exact h hm2
        · rw [if_neg h3]
          push_neg at h3
          obtain ⟨h3a, h3b, h3c⟩ := h3
          by_cases h4 : ¬(e &&& X86_64_V4_HWCAPS_07H_EBX = X86_64_V4_HWCAPS_07H_EBX)
          · rw [if_pos h4]
            refine ⟨fun j hj4 hj => ?_, fun _ hm => ?_, by omega, by omega⟩
            · have h6 : (4 : Nat) + 2 = 6 := rfl
              rw [h6] at hj
              interval_cases j
              · trivial
              · exact ⟨by omega, h1, h2⟩
              · exact ⟨by omega, by omega, h3a, h3c, h3b⟩
            · have h7 : (4 : Nat) + 2 + 1 = 7 := rfl
              rw [h7] at hm
              exact h4 hm.2.2.2.2
          · rw [if_neg h4]
            push_neg at h4
            refine ⟨fun j hj4 hj => ?_, by omega, by omega, by omega⟩
            have h7 : (4 : Nat) + 3 = 7 := rfl
            rw [h7] at hj
            interval_cases j
            · trivial
            · exact ⟨by omega, h1, h2⟩
            · exact ⟨by omega, by omega, h3a, h3c, h3b⟩
            · exact ⟨by omega, by omega, h3a, h3c, h4⟩


/-! ## Lemmas about the main pipeline -/

theorem memrchr_append_last (b : Nat) (xs ys : List Nat) (hys : ∀ y ∈ ys, y ≠ b) :
    memrchr b (xs ++ b :: ys) = some xs.length := by
  unfold memrchr
  have hnone : List.findIdx? (fun x => x == b) ys.reverse = none := by
    rw [List.findIdx?_eq_none_iff]
    intro x hx
    simp only [beq_eq_false_iff_ne, ne_eq]
    exact hys x (List.mem_reverse.mp hx)
  have hrev : (xs ++ b :: ys).reverse = ys.reverse ++ b :: xs.reverse := by
    rw [List.append_cons, List.reverse_append, List.reverse_append]
    simp
  rw [hrev, List.findIdx?_append, hnone]
  have hfirst : List.findIdx? (fun x => x == b) (b :: xs.reverse) = some 0 := by
    simp [List.findIdx?_cons]
  rw [hfirst]
  rw [show Option.map (fun i => i + ys.reverse.length) (some 0)
      = some (0 + ys.reverse.length) from rfl]
  rw [show (none : Option Nat).or (some (0 + ys.reverse.length))
      = some (0 + ys.reverse.length) from rfl]
  dsimp only
  congr 1
  simp only [List.length_append, List.length_cons, List.length_reverse]
  omega

theorem memrchr_isSome_of_mem {b : Nat} {l : List Nat} (h : b ∈ l) :
    ∃ i, memrchr b l = some i := by
  unfold memrchr
  cases hf : List.findIdx? (fun x => x == b) l.reverse with
  | none =>
    rw [List.findIdx?_eq_none_iff] at hf
    have := hf b (List.mem_reverse.mpr h)
    simp at this
  | some i => exact ⟨l.length - 1 - i, rfl⟩

theorem get_arg_string_terminated (core : List Nat) (h0 : 0 ∉ core) :
    get_arg_string (core ++ [0]) = .ok (core ++ [0]) := by
  unfold get_arg_string memchr
  have hnone : List.findIdx? (fun x => x == 0) core = none := by
    rw [List.findIdx?_eq_none_iff]
    intro x hx
    simp only [beq_eq_false_iff_ne, ne_eq]
    exact fun hx0 => h0 (hx0 ▸ hx)
  rw [List.findIdx?_append, hnone]
  have hz : List.findIdx? (fun x => x == 0) [0] = some 0 := by decide
  rw [hz]
  rw [show Option.map (fun i => i + core.length) (some 0)
      = some (0 + core.length) from rfl]
  rw [show (none : Option Nat).or (some (0 + core.length))
      = some (0 + core.length) from rfl]
  dsimp only
  congr 1
  rw [List.take_of_length_le (by simp)]

/-- Evaluation of `get_exec_path` on a well-formed loader path
`d ++ "/" ++ name` that fits the buffer: the buffer is the path padded with
zeros, `exec_size` its length, `last_dash` the index of the final slash. -/
theorem get_exec_path_model_ok (d name : List Nat)
    (hd47 : 47 ∈ d) (hn47 : 47 ∉ name)
    (hlen : (d ++ 47 :: name).length + 1 ≤ MAX_PATH_LEN) :
    ∃ bi2, get_exec_path_model (.ok (d ++ 47 :: name))
      = .ok (((d ++ 47 :: name)
               ++ List.replicate (MAX_PATH_LEN - (d ++ 47 :: name).length) 0,
             (d ++ 47 :: name).length, d.length, bi2)) := by
  have hsl : (d ++ 47 :: name).length ≤ MAX_PATH_LEN := by omega
  unfold get_exec_path_model readlink_contract
  dsimp only
  rw [List.take_of_length_le hsl]
  have hmin : min (d ++ 47 :: name).length MAX_PATH_LEN = (d ++ 47 :: name).length :=
    Nat.min_eq_left hsl
  rw [hmin]
  have hpos : ¬ ¬ (d ++ 47 :: name).length > 0 := by
    simp only [List.length_append, List.length_cons]
    omega
  rw [if_neg hpos]
  have hbuf : (d ++ 47 :: name) ++ List.replicate (MAX_PATH_LEN - (d ++ 47 :: name).length) 0
      = d ++ 47 :: (name ++ List.replicate (MAX_PATH_LEN - (d ++ 47 :: name).length) 0) := by
    simp
  have hlast : memrchr 47 ((d ++ 47 :: name)
        ++ List.replicate (MAX_PATH_LEN - (d ++ 47 :: name).length) 0) = some d.length := by
    rw [hbuf]
    apply memrchr_append_last
    intro y hy
    rcases List.mem_append.mp hy with hy | hy
    · exact fun h => hn47 (h ▸ hy)
    · have := List.eq_of_mem_replicate hy
      omega
  rw [hlast]
  dsimp only
  have htake : ((d ++ 47 :: name)
        ++ List.replicate (MAX_PATH_LEN - (d ++ 47 :: name).length) 0).take d.length = d := by
    rw [hbuf]
    exact take_len_append _ rfl
  rw [htake]
  obtain ⟨i2, hi2⟩ := memrchr_isSome_of_mem hd47
  rw [hi2]
  exact ⟨i2, rfl⟩


theorem liftLoop_fst_ne_selfExecution (x : LoopResult × List (List Nat)) :
    (liftLoop x).1 ≠ MainResult.selfExecution := by
  obtain ⟨r, t⟩ := x
  cases r <;> simp [liftLoop]

/-- The guard slice `exec_path[bin_index+1 .. exec_size+1]` is the loader's
trailing component followed by the buffer's 0 byte. -/
theorem guard_slice_eq (d name : List Nat) (hn47 : 47 ∉ name)
    (hlen : (d ++ 47 :: name).length + 1 ≤ MAX_PATH_LEN) :
    ((((d ++ 47 :: name)
        ++ List.replicate (MAX_PATH_LEN - (d ++ 47 :: name).length) 0).drop (d.length + 1)).take
      ((d ++ 47 :: name).length + 1 - (d.length + 1)))
      = name ++ [0] := by
  have hgrp : (d ++ 47 :: name)
        ++ List.replicate (MAX_PATH_LEN - (d ++ 47 :: name).length) 0
      = (d ++ [47]) ++ (name ++ List.replicate (MAX_PATH_LEN - (d ++ 47 :: name).length) 0) := by
    simp
  rw [hgrp, drop_len_append _ (by simp)]
  have hidx : (d ++ 47 :: name).length + 1 - (d.length + 1) = name.length + 1 := by
    simp only [List.length_append, List.length_cons]
    omega
  rw [hidx]
  rw [show name.length + 1 = name.length + 1 from rfl]
  rw [List.take_append 1]
  rw [List.take_replicate]
  have hone : min 1 (MAX_PATH_LEN - (d ++ 47 :: name).length) = 1 := by
    simp only [List.length_append, List.length_cons] at hlen ⊢
    omega
  rw [hone]
  rfl

/-- With the self-execution check enabled, whenever the NUL-terminated
invocation name ends with the loader's trailing component plus terminator,
main aborts with the self-execution outcome before consulting any of the
resolution oracles and with no execution attempt. -/
theorem hwcaps_main_guard_fires (fl : Nat) (d name stuff : List Nat)
    (hd47 : 47 ∈ d) (hn47 : 47 ∉ name)
    (hlen : (d ++ 47 :: name).length + 1 ≤ MAX_PATH_LEN)
    (h0 : 0 ∉ stuff ++ name)
    (open_parent cmd_open : Except Nat Nat) (cmd_link : Except Nat (List Nat))
    (exec : List Nat → Option Nat) :
    hwcaps_main true fl (stuff ++ name ++ [0]) (.ok (d ++ 47 :: name))
        open_parent cmd_open cmd_link exec
      = (.selfExecution, []) := by
  unfold hwcaps_main
  rw [get_arg_string_terminated (stuff ++ name) h0]
  obtain ⟨bi2, hgep⟩ := get_exec_path_model_ok d name hd47 hn47 hlen
  rw [hgep]
  dsimp only
  rw [guard_slice_eq d name hn47 hlen]
  have hsuf : (name ++ [0]).isSuffixOf (stuff ++ name ++ [0]) = true := by
    rw [List.isSuffixOf_iff_suffix]
    exact ⟨stuff, by simp⟩
  rw [hsuf]
  rfl

/-- Conversely, when the NUL-terminated invocation name does not end with
the loader's trailing component plus terminator, main never exits with the
self-execution outcome. -/
theorem hwcaps_main_guard_not_fired (fl : Nat) (d name core : List Nat)
    (hd47 : 47 ∈ d) (hn47 : 47 ∉ name)
    (hlen : (d ++ 47 :: name).length + 1 ≤ MAX_PATH_LEN)
    (h0 : 0 ∉ core)
    (hnosuf : ¬ (name ++ [0]) <:+ (core ++ [0]))
    (open_parent cmd_open : Except Nat Nat) (cmd_link : Except Nat (List Nat))
    (exec : List Nat → Option Nat) :
    (hwcaps_main true fl (core ++ [0]) (.ok (d ++ 47 :: name))
        open_parent cmd_open cmd_link exec).1
      ≠ MainResult.selfExecution := by
  unfold hwcaps_main
  rw [get_arg_string_terminated core h0]
  obtain ⟨bi2, hgep⟩ := get_exec_path_model_ok d name hd47 hn47 hlen
  rw [hgep]
  dsimp only
  rw [guard_slice_eq d name hn47 hlen]
  have hsuf : (name ++ [0]).isSuffixOf (core ++ [0]) = false := by
    rw [Bool.eq_false_iff]
    intro h
    exact hnosuf (List.isSuffixOf_iff_suffix.mp h)
  rw [hsuf]
  rw [show (true && false) = false from rfl]
  rw [if_neg (by simp)]
  cases hop : (if is_alias (core ++ [0]) then open_parent else Except.ok 0) with
  | error e => simp
  | ok v =>
    cases cmd_open with
    | error e => simp
    | ok v2 =>
      cases cmd_link with
      | error e => simp
      | ok tgt =>
        dsimp only
        split
        · simp
        · exact liftLoop_fst_ne_selfExecution _


theorem getLast?_cons_of_ne_nil {α : Type} {a : List α} (x : α) (h : a ≠ []) :
    (x :: a).getLast? = a.getLast? := by
  cases a with
  | nil => exact absurd rfl h
  | cons y l => rfl

/-- A target-execution-error outcome aborts the loop immediately: the
failing path is the last attempted one. -/
theorem runClean_execError_last (exec : List Nat → Option Nat) (pre sh : List Nat) :
    ∀ tiers p e, (runClean exec pre sh tiers).1 = .targetExecutionError p e →
      (runClean exec pre sh tiers).2.getLast? = some p := by
  intro tiers
  induction tiers with
  | nil =>
    intro p e h
    exact absurd h (by simp [runClean])
  | cons i rest ih =>
    intro p e h
    simp only [runClean] at h ⊢
    cases hex : exec (candidate pre sh i) with
    | none =>
      rw [hex] at h
      exact absurd h (by simp)
    | some e2 =>
      rw [hex] at h
      dsimp only at h ⊢
      by_cases he : e2 = ENOENT
      · rw [if_pos he] at h ⊢
        have hrec := ih p e h
        have hne : (runClean exec pre sh rest).2 ≠ [] := by
          intro hnil
          rw [hnil] at hrec
          exact absurd hrec (by simp)
        rw [getLast?_cons_of_ne_nil _ hne]
        exact hrec
      · rw [if_neg he] at h ⊢
        cases h
        rfl

/-! ## Claim theorems -/

/-- C1: in the descending tier loop of the Fallback Driver, an execve
failure with ENOENT continues to the next lower tier (so exhaustion means
every one of the `feature_level + 1` attempted candidates got ENOENT), an
execve failure with any other errno terminates immediately with the
target-execution-error outcome (the failing path is the last attempt, with
its errno), and when every attempt fails with ENOENT the loop terminates
with the no-viable-binaries outcome. -/
theorem fallback_driver_error_handling (exec : List Nat → Option Nat)
    (exec_path : List Nat) (ui fl : Nat) (sh : List Nat)
    (hexp : exec_path.length = MAX_PATH_LEN) (hfl : fl ≤ 7)
    (hsz : ui + 8 + (templateOf fl).length + sh.length + 1 ≤ MAX_PATH_LEN)
    (h0p : ∀ b ∈ exec_path.take (ui + 1), b ≠ 0) (h0s : ∀ b ∈ sh, b ≠ 0) :
    ((run_loop exec exec_path ui sh fl).1 = .targetNoViableBinaries →
      (run_loop exec exec_path ui sh fl).2.length = fl + 1 ∧
      ∀ p ∈ (run_loop exec exec_path ui sh fl).2, exec p = some ENOENT) ∧
    (∀ p e, (run_loop exec exec_path ui sh fl).1 = .targetExecutionError p e →
      exec p = some e ∧ e ≠ ENOENT ∧
      (run_loop exec exec_path ui sh fl).2.getLast? = some p) ∧
    ((∀ q, exec q = some ENOENT) →
      (run_loop exec exec_path ui sh fl).1 = .targetNoViableBinaries) := by
  rw [run_loop_eq_runClean exec exec_path ui fl sh hexp hfl hsz h0p h0s]
  have h := runClean_facts exec (exec_path.take (ui + 1)) sh (descList fl)
  refine ⟨fun hnv => ?_, fun p e he => ?_, fun hall => (h.2.2 hall).1⟩
  · obtain ⟨hl, hm⟩ := h.1 hnv
    exact ⟨by rw [hl, descList_length], hm⟩
  · obtain ⟨h1, h2, _⟩ := h.2.1 p e he
    exact ⟨h1, h2, runClean_execError_last exec _ sh (descList fl) p e he⟩

theorem fallback_driver_error_handling_witness :
    (run_loop (fun _ => some 2) (List.replicate 4096 47) 3 [47, 98] 7).1
      = LoopResult.targetNoViableBinaries :=
  (fallback_driver_error_handling (fun _ => some 2) (List.replicate 4096 47) 3 7 [47, 98]
    (by rw [List.length_replicate]; rfl) (by decide) (by decide) (by decide) (by decide)).2.2
    (fun _ => rfl)

/-- C2: on the 64-bit family, the detector, as a function of the CPUID
register values it reads, coincides with the claim's description: v1 when
the maximum extended leaf is below 0x80000001 or any v2-required bit
(SSE3, SSSE3, CMPXCHG16B, SSE4.1, SSE4.2, LAHF/SAHF) is absent; otherwise
v2 when the maximum basic leaf is below 7 or any v3-required bit is
absent; otherwise v4 when all of AVX-512 F/DQ/CD/BW/VL are present, else
v3. -/
theorem feature_detector_64_matches_claim (a b c d e : Nat) :
    get_max_feature_level_64 a b c d e = claimed_max_feature_level_x86_64 a b c d e :=
  get_max_feature_level_64_eq_claimed a b c d e

/-- C3: for every maximum tier and every command suffix, the incremental
path construction of the fallback loop (full reformat on the first
iteration and at the family boundary, a single version-digit overwrite
otherwise) produces, at every execve attempt, exactly the same path bytes
(and the same outcome) as reformatting the whole architecture-name segment
and re-appending the suffix on every iteration. -/
theorem incremental_path_refines_full_reformat (exec : List Nat → Option Nat)
    (exec_path : List Nat) (ui fl : Nat) (sh : List Nat)
    (hexp : exec_path.length = MAX_PATH_LEN) (hfl : fl ≤ 7)
    (hsz : ui + 8 + (templateOf fl).length + sh.length + 1 ≤ MAX_PATH_LEN)
    (h0p : ∀ b ∈ exec_path.take (ui + 1), b ≠ 0) (h0s : ∀ b ∈ sh, b ≠ 0) :
    run_loop exec exec_path ui sh fl = run_loop_full exec exec_path ui sh fl := by
  rw [run_loop_eq_runClean exec exec_path ui fl sh hexp hfl hsz h0p h0s,
    run_loop_full_eq_runClean exec exec_path ui fl sh hexp hfl hsz h0p h0s]

theorem incremental_path_refines_full_reformat_witness :
    run_loop (fun _ => some 2) (List.replicate 4096 47) 3 [47, 98] 7
      = run_loop_full (fun _ => some 2) (List.replicate 4096 47) 3 [47, 98] 7 :=
  incremental_path_refines_full_reformat (fun _ => some 2) (List.replicate 4096 47) 3 7
    [47, 98] (by rw [List.length_replicate]; rfl) (by decide) (by decide) (by decide) (by decide)


/-- When the computed path length exceeds the maximum, the iteration aborts
at the length check before any execve attempt. -/
theorem iter_state_too_large (ui : Nat) (pre sh tail : List Nat) (i : Nat) (s : LoopState)
    (hpre : pre.length = ui + 1)
    (htp : s.target_path = pre ++ hwcapsDir ++ tail)
    (hmf : s.must_format_arch = true)
    (hlen : s.target_path.length = MAX_PATH_LEN)
    (hgt : ui + 8 + (templateOf i).length + sh.length + 1 = MAX_PATH_LEN + 1) :
    iter_state ui sh i s = .error () := by
  have h7 : hwcapsDir.length = 7 := rfl
  have hA : (pre ++ hwcapsDir).length = ui + 8 := by
    simp [hpre, hwcapsDir_length]
  have hT : ui + 8 + tail.length = MAX_PATH_LEN := by
    rw [htp] at hlen
    simp only [List.length_append, hpre, hwcapsDir_length] at hlen
    omega
  have hdrop : s.target_path.drop (ui + 1 + hwcapsDir.length) = tail := by
    rw [htp]
    exact drop_len_append _ (by rw [hA, hwcapsDir_length])
  unfold iter_state
  rw [ite_mf_true hmf]
  dsimp only
  unfold loop_body_format
  rw [hmf]
  simp only [if_true]
  unfold format_arch_name
  rw [hdrop]
  rw [if_neg (by omega)]
  dsimp only
  rw [if_pos (by omega)]

/-- The whole fallback machinery aborts with the too-large outcome, with no
execve attempt, when the first candidate's path length is one byte past
the maximum. -/
theorem run_loop_too_large (exec : List Nat → Option Nat) (exec_path : List Nat)
    (ui fl : Nat) (sh : List Nat)
    (hexp : exec_path.length = MAX_PATH_LEN)
    (hgt : ui + 8 + (templateOf fl).length + sh.length + 1 = MAX_PATH_LEN + 1) :
    run_loop exec exec_path ui sh fl = (.targetPathTooLarge, []) := by
  have hm : MAX_PATH_LEN = 4096 := rfl
  have htl4 : 4 ≤ (templateOf fl).length := by
    rw [templateOf_length]
    split <;> omega
  have hpre : (exec_path.take (ui + 1)).length = ui + 1 := by
    simp only [List.length_take, hexp]
    omega
  have hinitlen : (writeSlice exec_path (ui + 1) hwcapsDir).length = MAX_PATH_LEN := by
    unfold writeSlice
    simp only [List.length_append, List.length_take, List.length_drop, hexp,
      hwcapsDir_length]
    omega
  have hiter := iter_state_too_large ui (exec_path.take (ui + 1)) sh
    (exec_path.drop (ui + 1 + hwcapsDir.length)) fl
    { target_path := writeSlice exec_path (ui + 1) hwcapsDir,
      must_format_arch := true, version_char_index := 0, path_len := 0 }
    hpre rfl rfl hinitlen hgt
  unfold run_loop
  rw [if_neg (by rw [hwcapsDir_length]; omega)]
  rw [descList_eq_range_reverse fl]
  cases fl with
  | zero => simp only [descList, run_tiers, hiter]
  | succ n => simp only [descList, run_tiers, hiter]

/-- C4 (modelled from the spec, as the final-variant main is not under
src/): when the resolved command path does not share the installation-root
prefix with the loader's own path, the program makes no execution attempt
and terminates with the TargetPathInvalid status, whose numeric value 240
(src/src/sys.rs) is distinct from every other exit status. -/
theorem target_location_validation_distinct_status (exec : List Nat → Option Nat)
    (exec_path resolved : List Nat) (rlen ui fl : Nat)
    (hmis : resolved.take (ui + 1) ≠ exec_path.take (ui + 1)) :
    main_final exec exec_path resolved rlen ui fl = (.targetPathInvalid, [])
    ∧ ExitCode.targetPathInvalid.val = 240
    ∧ (allExitCodes.map ExitCode.val).Pairwise (fun x y => x ≠ y) := by
  refine ⟨?_, rfl, by decide⟩
  unfold main_final
  rw [if_pos hmis]

theorem target_location_validation_distinct_status_witness :
    main_final (fun _ => some 2) (List.replicate 4096 47) (List.replicate 4096 48) 20 3 7
      = (.targetPathInvalid, []) :=
  (target_location_validation_distinct_status (fun _ => some 2)
    (List.replicate 4096 47) (List.replicate 4096 48) 20 3 7 (by decide)).1

/-- C5 counterexample: the claim also asserts that no path is ever silently
truncated at any resolution stage, but the resolution stage (resolve_path
in main.rs, via the readlink(2) contract quoted in src/src/sys.rs) has no
failure mode for an over-long resolved path: a 4097-byte resolved command
path is reported as a 4096-byte success, i.e. silently truncated, instead
of aborting with the too-long-path status. -/
theorem resolution_silent_truncation_counterexample :
    MAX_PATH_LEN < (List.replicate 4097 97).length
    ∧ (resolve_path_model (List.replicate 4097 97)).1 = MAX_PATH_LEN
    ∧ (resolve_path_model (List.replicate 4097 97)).2.length = MAX_PATH_LEN := by
  refine ⟨by rw [List.length_replicate]; decide, ?_, ?_⟩
  · unfold resolve_path_model readlink_contract
    dsimp only
    rw [List.length_replicate]
    decide
  · unfold resolve_path_model readlink_contract
    dsimp only
    simp only [List.length_append, List.length_take, List.length_replicate]
    decide

/-- C5 (amended): for every constructed candidate target path, a candidate
whose total length including the terminator is exactly the maximum is
attempted, one byte longer terminates with the too-large outcome before
any execution attempt, and every attempted path is the complete candidate
byte string for its tier — construction never truncates.  (The resolution
stage, by contrast, can silently truncate; see the counterexample.) -/
theorem candidate_path_length_boundary (exec : List Nat → Option Nat)
    (exec_path : List Nat) (ui fl : Nat) (sh : List Nat)
    (hexp : exec_path.length = MAX_PATH_LEN) (hfl : fl ≤ 7)
    (h0p : ∀ b ∈ exec_path.take (ui + 1), b ≠ 0) (h0s : ∀ b ∈ sh, b ≠ 0) :
    (ui + 8 + (templateOf fl).length + sh.length + 1 = MAX_PATH_LEN →
      (run_loop exec exec_path ui sh fl).2.head?
          = some (candidate (exec_path.take (ui + 1)) sh fl)
      ∧ (candidate (exec_path.take (ui + 1)) sh fl).length + 1 = MAX_PATH_LEN)
    ∧ (ui + 8 + (templateOf fl).length + sh.length + 1 = MAX_PATH_LEN + 1 →
      run_loop exec exec_path ui sh fl = (.targetPathTooLarge, []))
    ∧ (ui + 8 + (templateOf fl).length + sh.length + 1 ≤ MAX_PATH_LEN →
      ∀ p ∈ (run_loop exec exec_path ui sh fl).2,
        ∃ i, i ≤ fl ∧ p = candidate (exec_path.take (ui + 1)) sh i) := by
  have hm : MAX_PATH_LEN = 4096 := rfl
  refine ⟨fun heq => ?_, fun hgt => run_loop_too_large exec exec_path ui fl sh hexp hgt,
    fun hsz => ?_⟩
  · rw [run_loop_eq_runClean exec exec_path ui fl sh hexp hfl (by omega) h0p h0s]
    constructor
    · cases fl with
      | zero => exact runClean_trace_head exec _ sh 0 []
      | succ n =>
        rw [show descList (n + 1) = (n + 1) :: descList n from rfl]
        exact runClean_trace_head exec _ sh (n + 1) (descList n)
    · simp only [candidate, List.length_append, nameBytes_length, hwcapsDir_length,
        List.length_take, hexp]
      omega
  · rw [run_loop_eq_runClean exec exec_path ui fl sh hexp hfl hsz h0p h0s]
    intro p hp
    obtain ⟨i, hi, hpi⟩ := runClean_trace_mem exec _ sh (descList fl) p hp
    exact ⟨i, mem_descList.mp hi, hpi⟩

theorem candidate_path_length_boundary_witness :
    (run_loop (fun _ => some 2) (List.replicate 4096 47) 3 (List.replicate 4075 47) 7).2.head?
      = some (candidate ((List.replicate 4096 47).take 4) (List.replicate 4075 47) 7) :=
  ((candidate_path_length_boundary (fun _ => some 2) (List.replicate 4096 47) 3 7
      (List.replicate 4075 47) (by rw [List.length_replicate]; rfl) (by decide)
      (by decide)
      (fun b hb => by rw [List.eq_of_mem_replicate hb]; decide)).1
    (by rw [List.length_replicate]; rfl)).1

/-- C6 counterexample: the guard fires on a mere suffix collision.  With
the loader installed at /usr/bin/foo (trailing component "foo") and raw
invocation name "xfoo", the trailing components differ, yet main aborts
with the self-execution outcome, because the check is `ends_with`, not
component equality (main.rs line 201). -/
theorem self_execution_guard_counterexample :
    lastComponentOfArg ([120] ++ [102, 111, 111] ++ [0]) ≠ [102, 111, 111]
    ∧ hwcaps_main true 6 ([120] ++ [102, 111, 111] ++ [0])
        (.ok ([47, 117, 115, 114, 47, 98, 105, 110] ++ 47 :: [102, 111, 111]))
        (.ok 0) (.ok 0) (.ok []) (fun _ => some 2)
      = (.selfExecution, []) :=
  ⟨by decide,
   hwcaps_main_guard_fires 6 [47, 117, 115, 114, 47, 98, 105, 110] [102, 111, 111] [120]
     (by decide) (by decide) (by decide) (by decide) (.ok 0) (.ok 0) (.ok [])
     (fun _ => some 2)⟩

/-- C6 (amended): with the self-execution check enabled, the program aborts
with the self-execution status exactly when the NUL-terminated raw
invocation name ends with the loader's trailing path component followed by
the terminator — in particular whenever the trailing components are equal,
but also on longer names whose suffix merely coincides.  When it fires it
does so before consulting any resolution oracle (the outcome is the same
for all oracle values, with no execution attempt); when the suffix test
fails the self-execution status is never produced. -/
theorem self_execution_guard_suffix_semantics (fl : Nat) (d name : List Nat)
    (hd47 : 47 ∈ d) (hn47 : 47 ∉ name)
    (hlen : (d ++ 47 :: name).length + 1 ≤ MAX_PATH_LEN) :
    (∀ stuff : List Nat, 0 ∉ stuff ++ name →
      ∀ (op co : Except Nat Nat) (cl : Except Nat (List Nat))
        (exec : List Nat → Option Nat),
        hwcaps_main true fl (stuff ++ name ++ [0]) (.ok (d ++ 47 :: name)) op co cl exec
          = (.selfExecution, []))
    ∧ (∀ core : List Nat, 0 ∉ core → ¬ (name ++ [0]) <:+ (core ++ [0]) →
      ∀ (op co : Except Nat Nat) (cl : Except Nat (List Nat))
        (exec : List Nat → Option Nat),
        (hwcaps_main true fl (core ++ [0]) (.ok (d ++ 47 :: name)) op co cl exec).1
          ≠ MainResult.selfExecution) :=
  ⟨fun stuff h0 op co cl exec =>
      hwcaps_main_guard_fires fl d name stuff hd47 hn47 hlen h0 op co cl exec,
   fun core h0 hnosuf op co cl exec =>
      hwcaps_main_guard_not_fired fl d name core hd47 hn47 hlen h0 hnosuf op co cl exec⟩

theorem self_execution_guard_suffix_semantics_witness :
    hwcaps_main true 0 ([120] ++ [102, 111, 111] ++ [0])
        (.ok ([47, 117, 115, 114, 47, 98, 105, 110] ++ 47 :: [102, 111, 111]))
        (.ok 0) (.ok 0) (.ok []) (fun _ => some 2)
      = (.selfExecution, []) :=
  (self_execution_guard_suffix_semantics 0 [47, 117, 115, 114, 47, 98, 105, 110]
      [102, 111, 111] (by decide) (by decide) (by decide)).1
    [120] (by decide) (.ok 0) (.ok 0) (.ok []) (fun _ => some 2)


/-- C7: within each tier family the requirement sets grow strictly from
tier to tier (per queried register), and both detectors stop at the first
tier whose full requirement set is unmet — every tier up to the returned
one is fully met and, below the family's top tier, the next tier's
requirement fails, so a partial match never advances. -/
theorem tier_requirements_monotone_first_fail :
    (∀ n, n < 4 → 1 ≤ n →
      x86ReqEdx n &&& x86ReqEdx (n - 1) = x86ReqEdx (n - 1)
      ∧ x86ReqEdx (n - 1) ≠ x86ReqEdx n)
    ∧ (∀ n, n < 8 → 5 ≤ n →
      (x8664Req n).ecx1 &&& (x8664Req (n - 1)).ecx1 = (x8664Req (n - 1)).ecx1
      ∧ (x8664Req n).ecx_ext &&& (x8664Req (n - 1)).ecx_ext = (x8664Req (n - 1)).ecx_ext
      ∧ (x8664Req n).ebx7 &&& (x8664Req (n - 1)).ebx7 = (x8664Req (n - 1)).ebx7
      ∧ x8664Req (n - 1) ≠ x8664Req n)
    ∧ (∀ b, (∀ j, j ≤ get_max_feature_level_32 b → meets32 b j)
        ∧ (get_max_feature_level_32 b < 3 →
            ¬ meets32 b (get_max_feature_level_32 b + 1))
        ∧ get_max_feature_level_32 b ≤ 3)
    ∧ (∀ a b c d e,
        (∀ j, 4 ≤ j → j ≤ get_max_feature_level_64 a b c d e → meets64 a b c d e j)
        ∧ (get_max_feature_level_64 a b c d e < 7 →
            ¬ meets64 a b c d e (get_max_feature_level_64 a b c d e + 1))
        ∧ 4 ≤ get_max_feature_level_64 a b c d e
        ∧ get_max_feature_level_64 a b c d e ≤ 7) :=
  ⟨by decide, by decide, get_max_feature_level_32_spec, get_max_feature_level_64_spec⟩

theorem tier_requirements_monotone_first_fail_witness : meets32 1 1 :=
  (tier_requirements_monotone_first_fail.2.2.1 1).1 1 (by decide)

/-- C8 counterexample: format_arch_name writes a 0 placeholder (not the
tier's suffix digit, which for tier 0 is the character 51, '3') at the
returned offset, and for the 32-bit family the bytes "86" follow it, so on
success the function does not write "the family's fixed prefix followed by
the tier's single suffix digit character". -/
theorem format_arch_name_placeholder_counterexample :
    format_arch_name (List.replicate 16 1) 0
      = .ok ((1, 4), [105, 0, 56, 54] ++ List.replicate 12 1)
    ∧ ([105, 0, 56, 54] ++ List.replicate 12 1).getD 1 0 = 0
    ∧ HWCAPS_CHARS.getD 0 0 = 51
    ∧ (0 : Nat) ≠ 51 := ⟨rfl, rfl, rfl, by decide⟩

/-- C8 (amended): format_arch_name fails with the out-of-space error
exactly when the buffer is shorter than the tier's family template; on
success it writes the family template — the fixed name bytes with a 0
placeholder at the version-character position (offset 1 for the 32-bit
family, inside the name; offset 8 for the 64-bit family) — leaving the
rest of the buffer untouched, and returns that offset together with the
total number of bytes written; the caller overwrites the placeholder with
the tier's digit. -/
theorem format_arch_name_contract (buffer : List Nat) (fl : Nat) :
    (format_arch_name buffer fl = .error () ↔ buffer.length < (templateOf fl).length)
    ∧ ((templateOf fl).length ≤ buffer.length →
        format_arch_name buffer fl
          = .ok ((version_index_scan (templateOf fl) 0 0, (templateOf fl).length),
                 templateOf fl ++ buffer.drop (templateOf fl).length))
    ∧ version_index_scan (templateOf fl) 0 0 = (if fl < 4 then 1 else 8) := by
  refine ⟨?_, fun hle => ?_, ?_⟩
  · unfold format_arch_name
    by_cases hlt : buffer.length < (templateOf fl).length
    · simp [hlt]
    · simp [hlt]
  · unfold format_arch_name
    rw [if_neg (by omega)]
  · by_cases h : fl < 4
    · have ht : templateOf fl = X86_HWCAPS_STRING := by
        unfold templateOf
        rw [if_pos (show fl < X86_64_HWCAPS_INDEX from h)]
      rw [ht, if_pos h]
      decide
    · have ht : templateOf fl = X86_64_HWCAPS_STRING := by
        unfold templateOf
        rw [if_neg (show ¬ fl < X86_64_HWCAPS_INDEX from h)]
      rw [ht, if_neg h]
      decide

theorem format_arch_name_contract_witness :
    format_arch_name (List.replicate 16 1) 5
      = .ok ((version_index_scan (templateOf 5) 0 0, (templateOf 5).length),
             templateOf 5 ++ (List.replicate 16 1).drop (templateOf 5).length) :=
  (format_arch_name_contract (List.replicate 16 1) 5).2.1 (by decide)

/-- C9 counterexample: for the adjacent same-family tiers v2 (5) and v1
(4), format_arch_name produces byte-for-byte identical output — zero
differing bytes, not "exactly one byte" — because the digit is written
later by the caller, not by format_arch_name. -/
theorem format_arch_name_adjacent_identical :
    format_arch_name (List.replicate 16 0) 5 = format_arch_name (List.replicate 16 0) 4
    ∧ templateOf 5 = templateOf 4 := ⟨rfl, rfl⟩

/-- C9 (amended): the completed architecture names — the template with the
tier's digit written at the returned offset, exactly as the fallback
driver completes them — differ, for any two adjacent tiers of the same
family, in exactly one byte (the suffix digit), at the same offset. -/
theorem completed_arch_names_single_byte_diff :
    ∀ i, i < 8 → 1 ≤ i → i ≠ 4 →
      diffIndices (nameBytes i) (nameBytes (i - 1))
        = [version_index_scan (templateOf i) 0 0]
      ∧ (nameBytes i).length = (nameBytes (i - 1)).length := by decide

theorem completed_arch_names_single_byte_diff_witness :
    diffIndices (nameBytes 5) (nameBytes 4) = [version_index_scan (templateOf 5) 0 0] :=
  (completed_arch_names_single_byte_diff 5 (by decide) (by decide) (by decide)).1

/-- Under the all-ENOENT oracle the loop attempts one candidate per tier
from the maximum down to 0 and, when the maximum is in the 64-bit family,
the last four attempts are the i686, i586, i486 and i386 candidates, in
that order, before the no-viable-binaries outcome. -/
theorem run_loop_enoent_crosses_boundary (exec : List Nat → Option Nat)
    (exec_path : List Nat) (ui fl : Nat) (sh : List Nat)
    (hexp : exec_path.length = MAX_PATH_LEN)
    (hge4 : 4 ≤ fl) (hle7 : fl ≤ 7)
    (hsz : ui + 8 + 9 + sh.length + 1 ≤ MAX_PATH_LEN)
    (h0p : ∀ x ∈ exec_path.take (ui + 1), x ≠ 0) (h0s : ∀ x ∈ sh, x ≠ 0)
    (hall : ∀ q, exec q = some ENOENT) :
    (run_loop exec exec_path ui sh fl).1 = .targetNoViableBinaries
    ∧ (run_loop exec exec_path ui sh fl).2.length = fl + 1
    ∧ (run_loop exec exec_path ui sh fl).2.drop (fl - 3)
        = [exec_path.take (ui + 1) ++ hwcapsDir ++ [105, 54, 56, 54] ++ sh,
           exec_path.take (ui + 1) ++ hwcapsDir ++ [105, 53, 56, 54] ++ sh,
           exec_path.take (ui + 1) ++ hwcapsDir ++ [105, 52, 56, 54] ++ sh,
           exec_path.take (ui + 1) ++ hwcapsDir ++ [105, 51, 56, 54] ++ sh] := by
  have hszf : ui + 8 + (templateOf fl).length + sh.length + 1 ≤ MAX_PATH_LEN := by
    rw [templateOf_length, if_neg (by omega)]
    omega
  rw [run_loop_eq_runClean exec exec_path ui fl sh hexp hle7 hszf h0p h0s]
  obtain ⟨h1, h2⟩ :=
    (runClean_facts exec (exec_path.take (ui + 1)) sh (descList fl)).2.2 hall
  refine ⟨h1, ?_, ?_⟩
  · rw [h2, List.length_map, descList_length]
  · rw [h2]
    have hn3 : nameBytes 3 = [105, 54, 56, 54] := by decide
    have hn2 : nameBytes 2 = [105, 53, 56, 54] := by decide
    have hn1 : nameBytes 1 = [105, 52, 56, 54] := by decide
    have hn0 : nameBytes 0 = [105, 51, 56, 54] := by decide
    interval_cases fl <;> simp [descList, candidate, hn3, hn2, hn1, hn0]

/-- C10: on the 64-bit architecture the maximum tier reported by the
detector is always at or above the family boundary, and when every
candidate fails with ENOENT the fallback loop does not stop at the family
floor x86-64-v1: it continues through the 32-bit family, attempting the
i686, i586, i486 and i386 candidates in that order, before terminating
with the no-viable-binaries outcome. -/
theorem fallback_crosses_family_boundary (a b c d e : Nat)
    (exec : List Nat → Option Nat) (exec_path : List Nat) (ui : Nat) (sh : List Nat)
    (hexp : exec_path.length = MAX_PATH_LEN)
    (hsz : ui + 8 + 9 + sh.length + 1 ≤ MAX_PATH_LEN)
    (h0p : ∀ x ∈ exec_path.take (ui + 1), x ≠ 0) (h0s : ∀ x ∈ sh, x ≠ 0)
    (hall : ∀ q, exec q = some ENOENT) :
    4 ≤ get_max_feature_level_64 a b c d e
    ∧ (run_loop exec exec_path ui sh (get_max_feature_level_64 a b c d e)).1
        = .targetNoViableBinaries
    ∧ (run_loop exec exec_path ui sh (get_max_feature_level_64 a b c d e)).2.length
        = get_max_feature_level_64 a b c d e + 1
    ∧ (run_loop exec exec_path ui sh (get_max_feature_level_64 a b c d e)).2.drop
          (get_max_feature_level_64 a b c d e - 3)
        = [exec_path.take (ui + 1) ++ hwcapsDir ++ [105, 54, 56, 54] ++ sh,
           exec_path.take (ui + 1) ++ hwcapsDir ++ [105, 53, 56, 54] ++ sh,
           exec_path.take (ui + 1) ++ hwcapsDir ++ [105, 52, 56, 54] ++ sh,
           exec_path.take (ui + 1) ++ hwcapsDir ++ [105, 51, 56, 54] ++ sh] := by
  obtain ⟨-, -, hge4, hle7⟩ := get_max_feature_level_64_spec a b c d e
  obtain ⟨h1, h2, h3⟩ := run_loop_enoent_crosses_boundary exec exec_path ui
    (get_max_feature_level_64 a b c d e) sh hexp hge4 hle7 hsz h0p h0s hall
  exact ⟨hge4, h1, h2, h3⟩

theorem fallback_crosses_family_boundary_witness :
    4 ≤ get_max_feature_level_64 0x80000000 0 0 0 0
    ∧ (run_loop (fun _ => some 2) (List.replicate 4096 47) 3 [47, 98]
        (get_max_feature_level_64 0x80000000 0 0 0 0)).1
      = LoopResult.targetNoViableBinaries := by
  have h := fallback_crosses_family_boundary 0x80000000 0 0 0 0 (fun _ => some 2)
    (List.replicate 4096 47) 3 [47, 98] (by rw [List.length_replicate]; rfl)
    (by decide) (by decide) (by decide) (fun _ => rfl)
  exact ⟨h.1, h.2.1⟩

end Hwcaps
